import Mathlib

/-
Verification of the drill-file normalization core (src/drill.rs, src/header.rs)
of the nextjlc repository.

Modelling conventions:
- Rust f64 values are embedded as exact decimal fixed-point numbers
  `Dec` with value num / 10 ^ e.  Every numeric value flowing through the
  drill pipeline originates from a decimal digit string, so this embedding is
  exact; the claims settled here are robust to the difference between exact
  decimal arithmetic and binary floating point (inputs are chosen away from
  representation boundaries).
- Rust code that can abort at runtime (indexing a regex capture group that did
  not participate in the match) is embedded in the Option monad; `none` marks
  the abort.
- The regexes of drill.rs are embedded as deterministic matchers over
  character lists; each matcher documents the regex it implements.  All the
  character classes involved are disjoint from the literal that follows them,
  so greedy maximal-munch matching coincides with the backtracking semantics
  of the Rust regex crate.
- The randomized header generator of header.rs (random software name and
  version, current local time) is modelled by passing the generated
  `HeaderInfo` as an explicit argument.
- ASCII case conversion is used for to_lowercase and to_uppercase; all
  relevant markers in drill.rs are ASCII.
-/

/-! ### Character and string utilities -/

/-- Decimal digit characters, the regex class [0-9]. -/
def isDig (c : Char) : Bool := c.isDigit

/-- The regex class [0-9.-] used for coordinate captures. -/
def isCoordChar (c : Char) : Bool := c.isDigit || c = '.' || c = '-'

/-- The regex class [0-9.] used for diameter captures. -/
def isDiamChar (c : Char) : Bool := c.isDigit || c = '.'

/-- Whitespace as stripped by str::trim (ASCII fragment). -/
def isWs (c : Char) : Bool := c = ' ' || c = '\t' || c = '\n' || c = '\r'

/-- Strip whitespace from both ends of a line, as str::trim does. -/
def trimL (l : List Char) : List Char :=
  ((l.dropWhile isWs).reverse.dropWhile isWs).reverse

/-- Bool test: pat is a prefix of l. -/
def chPre : List Char → List Char → Bool
  | [], _ => true
  | _ :: _, [] => false
  | p :: ps, d :: ds => p = d && chPre ps ds

/-- Bool test: pat occurs as a contiguous substring of l (str::contains). -/
def chSub (pat : List Char) : List Char → Bool
  | [] => pat.isEmpty
  | c :: t => chPre pat (c :: t) || chSub pat t

/-- str::contains on strings. -/
def strContains (s pat : String) : Bool := chSub pat.toList s.toList

/-- str::to_lowercase (ASCII fragment). -/
def lowerL (l : List Char) : List Char := l.map Char.toLower

/-- str::to_uppercase (ASCII fragment). -/
def upperL (l : List Char) : List Char := l.map Char.toUpper

/-- str::ends_with on strings. -/
def strEndsWith (s pat : String) : Bool := chPre pat.toList.reverse s.toList.reverse

/-- Split a character list at newline characters, keeping empty parts
(the split underlying str::lines). -/
def splitNl : List Char → List (List Char)
  | [] => [[]]
  | c :: t =>
    let r := splitNl t
    if c = '\n' then [] :: r
    else (c :: r.headI) :: r.tail

/-- Drop one trailing carriage return, as str::lines does for \r\n endings. -/
def stripCr (l : List Char) : List Char :=
  if l.getLast? = some '\r' then l.dropLast else l

/-- str::lines: split at newlines, the final line ending being optional.
(The \r stripping is also applied to a final line with no newline after it;
every consumer of a line immediately trims it, so this is observationally
identical on the functions modelled here.) -/
def rustLines (s : String) : List (List Char) :=
  let cs := s.toList
  if cs.isEmpty then []
  else
    let parts := splitNl cs
    let parts := if cs.getLast? = some '\n' then parts.dropLast else parts
    parts.map stripCr

/-! ### Exact decimal fixed-point numbers standing for f64 -/

/-- Exact decimal number num / 10 ^ e, the embedding of the f64 values of
drill.rs (all of which originate from decimal digit strings). -/
structure Dec where
  num : Int
  e : Nat
deriving DecidableEq

/-- The rational value of a `Dec`. -/
def Dec.toRat (d : Dec) : ℚ := (d.num : ℚ) / 10 ^ d.e

/-- Zero. -/
def dZero : Dec := ⟨0, 0⟩

/-- Exact multiplication. -/
def dMul (a b : Dec) : Dec := ⟨a.num * b.num, a.e + b.e⟩

/-- Exact addition (common denominator 10 ^ max). -/
def dAdd (a b : Dec) : Dec :=
  if a.e ≤ b.e then ⟨a.num * 10 ^ (b.e - a.e) + b.num, b.e⟩
  else ⟨a.num + b.num * 10 ^ (a.e - b.e), a.e⟩

/-- Multiplication by a sign. -/
def dSignMul (s : Int) (d : Dec) : Dec := ⟨s * d.num, d.e⟩

/-- Division by 10 ^ k. -/
def dDivPow10 (d : Dec) (k : Nat) : Dec := ⟨d.num, d.e + k⟩

/-- The constant INCH_TO_MM = 25.4 of drill.rs. -/
def inchToMm : Dec := ⟨254, 1⟩

/-! ### Number parsing (str::parse with unwrap_or defaults) -/

/-- Numeric value of a digit string. -/
def natOfDigits : List Char → Nat :=
  List.foldl (fun a c => a * 10 + (c.toNat - 48)) 0

/-- str::parse::<u32>() on a digit-only capture, with unwrap_or default
(the only failure on a digit string is overflow). -/
def parseU32 (digitsL : List Char) (dflt : Nat) : Nat :=
  let n := natOfDigits digitsL
  if n < 4294967296 then n else dflt

/-- str::parse::<f64>() restricted to the token shapes the drill.rs regexes
can capture (sign, digits, at most one dot; no exponents or letters occur in
the captured classes).  Returns none where Rust returns Err. -/
def parseF64Core (l : List Char) : Option Dec :=
  let sl : Int × List Char :=
    match l with
    | '-' :: t => (-1, t)
    | '+' :: t => (1, t)
    | _ => (1, l)
  let ip := sl.2.takeWhile isDig
  let rest := sl.2.dropWhile isDig
  match rest with
  | [] => if ip.isEmpty then none else some ⟨sl.1 * natOfDigits ip, 0⟩
  | c :: t =>
    if c = '.' then
      let fp := t.takeWhile isDig
      let rest2 := t.dropWhile isDig
      if rest2.isEmpty && (!ip.isEmpty || !fp.isEmpty) then
        some ⟨sl.1 * (natOfDigits ip * 10 ^ fp.length + natOfDigits fp), fp.length⟩
      else none
    else none

/-- str::parse::<f64>().unwrap_or(0.0). -/
def parseF64D (l : List Char) : Dec := (parseF64Core l).getD dZero

/-- str::parse::<i64>(): sign, digits only, within the i64 range. -/
def parseI64Core (l : List Char) : Option Int :=
  let sl : Int × List Char :=
    match l with
    | '-' :: t => (-1, t)
    | '+' :: t => (1, t)
    | _ => (1, l)
  let ip := sl.2.takeWhile isDig
  let rest := sl.2.dropWhile isDig
  if ip.isEmpty || !rest.isEmpty then none
  else
    let n := natOfDigits ip
    let v := sl.1 * n
    if -9223372036854775808 ≤ v && v ≤ 9223372036854775807 then some v else none

/-! ### Matchers for the regexes of drill.rs -/

/-- Consume one expected literal character. -/
def lit (c : Char) (l : List Char) : Option (List Char) :=
  match l with
  | d :: t => if d = c then some t else none
  | [] => none

/-- Consume an expected literal string. -/
def litStr : List Char → List Char → Option (List Char)
  | [], l => some l
  | _ :: _, [] => none
  | p :: ps, d :: t => if d = p then litStr ps t else none

/-- Consume a nonempty maximal run of class characters (a greedy `+`). -/
def run1 (p : Char → Bool) (l : List Char) : Option (List Char × List Char) :=
  let r := l.takeWhile p
  if r.isEmpty then none else some (r, l.dropWhile p)

/-- An optional group (?:c(CLASS+))? : returns the capture (if the group
participates) and the rest of the input. -/
def optGroup (c : Char) (p : Char → Bool) (l : List Char) :
    Option (List Char) × List Char :=
  match l with
  | d :: t =>
    if d = c then
      match run1 p t with
      | some (r, rest) => (some r, rest)
      | none => (none, l)
    else (none, l)
  | [] => (none, l)

/-- AD_TOOL_REGEX = ^T(\d+)F\d+S\d+C([\d.]+) : captures (tool digits,
diameter characters). -/
def adToolCaps (l : List Char) : Option (List Char × List Char) := do
  let l ← lit 'T' l
  let (t, l) ← run1 isDig l
  let l ← lit 'F' l
  let (_, l) ← run1 isDig l
  let l ← lit 'S' l
  let (_, l) ← run1 isDig l
  let l ← lit 'C' l
  let (d, _) ← run1 isDiamChar l
  pure (t, d)

/-- KICAD_TOOL_REGEX = ^T(\d+)C([\d.]+). -/
def kicadToolCaps (l : List Char) : Option (List Char × List Char) := do
  let l ← lit 'T' l
  let (t, l) ← run1 isDig l
  let l ← lit 'C' l
  let (d, _) ← run1 isDiamChar l
  pure (t, d)

/-- TOOL_SELECT_REGEX = ^T(\d+)$. -/
def toolSelectCaps (l : List Char) : Option (List Char) := do
  let l ← lit 'T' l
  let (t, rest) ← run1 isDig l
  if rest.isEmpty then pure t else none

/-- COORD_REGEX = ^(?:X([\d.-]+))?(?:Y([\d.-]+))?$ (anchored at both ends). -/
def coordCaps (l : List Char) : Option (Option (List Char) × Option (List Char)) :=
  let xr := optGroup 'X' isCoordChar l
  let yr := optGroup 'Y' isCoordChar xr.2
  if yr.2.isEmpty then some (xr.1, yr.1) else none

/-- ROUTE_START_REGEX / ROUTE_TO_REGEX = ^G0c(?:X([\d.-]+))?(?:Y([\d.-]+))?
(anchored only at the start; c is the third literal character). -/
def routeCaps (c : Char) (l : List Char) : Option (Option (List Char) × Option (List Char)) := do
  let l ← litStr ['G', '0', c] l
  let xr := optGroup 'X' isCoordChar l
  let yr := optGroup 'Y' isCoordChar xr.2
  pure (xr.1, yr.1)

/-- The KiCad hole regex ^X([\d.-]+)Y([\d.-]+) compiled inside the body loop. -/
def xyCaps (l : List Char) : Option (List Char × List Char) := do
  let l ← lit 'X' l
  let (x, l) ← run1 isCoordChar l
  let l ← lit 'Y' l
  let (y, _) ← run1 isCoordChar l
  pure (x, y)

/-- FILE_FORMAT_REGEX at one position: FILE_FORMAT=(\d+):(\d+). -/
def ffAt (l : List Char) : Option (List Char × List Char) := do
  let l ← litStr "FILE_FORMAT=".toList l
  let (a, l) ← run1 isDig l
  let l ← lit ':' l
  let (b, _) ← run1 isDig l
  pure (a, b)

/-- FILE_FORMAT_REGEX searched anywhere in the line (leftmost match). -/
def ffFind : List Char → Option (List Char × List Char)
  | [] => none
  | c :: t => (ffAt (c :: t)) <|> ffFind t

/-! ### Data model of drill.rs -/

/-- Hole plating type. -/
inductive HoleType
  | Plated
  | NonPlated
deriving DecidableEq

/-- Unit type for drill files. -/
inductive DrillUnit
  | Inch
  | Metric
deriving DecidableEq

/-- Drill command types; coordinates stored in mm. -/
inductive DrillCommand
  | Hole (x y : Dec)
  | Slot (start_x start_y end_x end_y : Dec)
deriving DecidableEq

/-- A tool definition with its associated drill commands. -/
structure DrillOperation where
  diameter : Dec
  hole_type : HoleType
  commands : List DrillCommand
deriving DecidableEq

/-- Parsed drill file representation. -/
structure DrillFile where
  operations : List DrillOperation
deriving DecidableEq

/-- Result of processing drill files. -/
structure DrillResult where
  pth_content : Option String
  npth_content : Option String
  warnings : List String
deriving DecidableEq

/-- EDA type detected from drill file content. -/
inductive DrillEdaType
  | Altium
  | KiCad
  | Unknown
deriving DecidableEq

/-! ### BTreeMap with Nat keys, as a key-sorted association list -/

/-- BTreeMap::insert (replacing an existing value), keeping keys sorted. -/
def alInsert {β : Type} (k : Nat) (v : β) : List (Nat × β) → List (Nat × β)
  | [] => [(k, v)]
  | (k1, v1) :: t =>
    if k < k1 then (k, v) :: (k1, v1) :: t
    else if k = k1 then (k, v) :: t
    else (k1, v1) :: alInsert k v t

/-- BTreeMap::get / contains_key. -/
def alLookup {β : Type} (k : Nat) : List (Nat × β) → Option β
  | [] => none
  | (k1, v1) :: t => if k = k1 then some v1 else alLookup k t

/-- In-place update through BTreeMap::get_mut: apply f to the value at k,
no-op when k is absent. -/
def alModify {β : Type} (k : Nat) (f : β → β) : List (Nat × β) → List (Nat × β)
  | [] => []
  | (k1, v1) :: t => if k = k1 then (k1, f v1) :: t else (k1, v1) :: alModify k f t

/-! ### Coordinate decoding (parse_ad_coordinate) -/

/-- parse_ad_coordinate: parse a coordinate token according to FILE_FORMAT
and convert to mm. -/
def parse_ad_coordinate (coord : List Char) (integer_places decimal_places : Nat)
    (is_lz : Bool) (unit : DrillUnit) : Dec :=
  if coord.any (fun c => c = '.') then
    let val := parseF64D coord
    if unit = DrillUnit.Inch then dMul val inchToMm else val
  else
    let sign : Int := if chPre ['-'] coord then -1 else 1
    let abs_coord := coord.dropWhile (fun c => c = '+' || c = '-')
    let val :=
      if is_lz then
        if abs_coord.length ≤ integer_places then parseF64D abs_coord
        else
          let int_part := abs_coord.take integer_places
          let dec_part := abs_coord.drop integer_places
          let int_val := parseF64D int_part
          let dec_val :=
            if !dec_part.isEmpty then dDivPow10 (parseF64D dec_part) dec_part.length
            else dZero
          dAdd int_val dec_val
      else
        match parseI64Core abs_coord with
        | some v => ⟨v, decimal_places⟩
        | none => dZero
    let result := dSignMul sign val
    if unit = DrillUnit.Inch then dMul result inchToMm else result

/-! ### The Generic/Altium parser (parse_ad_excellon) -/

/-- Header-pass state of parse_ad_excellon. -/
structure AdHeader where
  unit : DrillUnit
  integer_places : Nat
  decimal_places : Nat
  is_lz : Bool
  current_hole_type : HoleType
  in_header : Bool
  tool_map : List (Nat × (Dec × HoleType))
deriving DecidableEq

/-- Defaults of parse_ad_excellon: Metric, 2:4 FILE_FORMAT assumption, LZ. -/
def adHeaderInit : AdHeader :=
  ⟨DrillUnit.Metric, 2, 4, true, HoleType.Plated, true, []⟩

/-- One header-pass line of parse_ad_excellon. -/
def adHeaderLine (st : AdHeader) (raw : List Char) : AdHeader :=
  let line := trimL raw
  if line = ['%'] then { st with in_header := false }
  else if st.in_header then
    let upper := upperL line
    let st :=
      if chPre "INCH".toList upper then
        { st with unit := DrillUnit.Inch,
                  is_lz := if chSub "LZ".toList upper then true
                           else if chSub "TZ".toList upper then false
                           else st.is_lz }
      else if chPre "METRIC".toList upper then
        { st with unit := DrillUnit.Metric,
                  is_lz := if chSub "LZ".toList upper then true
                           else if chSub "TZ".toList upper then false
                           else st.is_lz }
      else st
    let st :=
      match ffFind line with
      | some (a, b) =>
        { st with integer_places := parseU32 a 2, decimal_places := parseU32 b 4 }
      | none => st
    let st :=
      if chSub "TYPE=PLATED".toList line && !chSub "NON_PLATED".toList line then
        { st with current_hole_type := HoleType.Plated }
      else if chSub "TYPE=NON_PLATED".toList line then
        { st with current_hole_type := HoleType.NonPlated }
      else st
    match adToolCaps line with
    | some (tc, dc) =>
      let tool_num := parseU32 tc 0
      let diameter_raw := parseF64D dc
      let diameter_mm :=
        if st.unit = DrillUnit.Inch then dMul diameter_raw inchToMm else diameter_raw
      { st with tool_map := alInsert tool_num (diameter_mm, st.current_hole_type) st.tool_map }
    | none => st
  else st

/-- Body-pass state of parse_ad_excellon. -/
structure AdBody where
  current_tool : Option Nat
  in_route : Bool
  last_x : Dec
  last_y : Dec
  in_header : Bool
  ops : List (Nat × DrillOperation)
deriving DecidableEq

/-- One body-pass line of parse_ad_excellon. -/
def adBodyLine (ip dp : Nat) (lz : Bool) (unit : DrillUnit)
    (tm : List (Nat × (Dec × HoleType))) (st : AdBody) (raw : List Char) : AdBody :=
  let line := trimL raw
  if line = ['%'] then { st with in_header := false }
  else if st.in_header || line.isEmpty || chPre [';'] line then st
  else
    match toolSelectCaps line with
    | some tc =>
      let tool_num := parseU32 tc 0
      if (alLookup tool_num tm).isSome then { st with current_tool := some tool_num }
      else st
    | none =>
    match routeCaps '0' line with
    | some (ox, oy) =>
      let st :=
        match ox with
        | some xs => { st with last_x := parse_ad_coordinate xs ip dp lz unit }
        | none => st
      match oy with
      | some ys => { st with last_y := parse_ad_coordinate ys ip dp lz unit }
      | none => st
    | none =>
    if line = "M15".toList then { st with in_route := true }
    else
      match (if st.in_route then routeCaps '1' line else none) with
      | some (ox, oy) =>
        let start_x := st.last_x
        let start_y := st.last_y
        let st :=
          match ox with
          | some xs => { st with last_x := parse_ad_coordinate xs ip dp lz unit }
          | none => st
        let st :=
          match oy with
          | some ys => { st with last_y := parse_ad_coordinate ys ip dp lz unit }
          | none => st
        match st.current_tool with
        | some tool =>
          { st with ops := alModify tool (fun op =>
              { op with commands :=
                  op.commands ++ [DrillCommand.Slot start_x start_y st.last_x st.last_y] }) st.ops }
        | none => st
      | none =>
      if line = "M16".toList then { st with in_route := false }
      else
        match coordCaps line with
        | some (ox, oy) =>
          if ox = none && oy = none then st
          else
            match st.current_tool with
            | some tool =>
              if (alLookup tool st.ops).isSome then
                let st :=
                  match ox with
                  | some xs => { st with last_x := parse_ad_coordinate xs ip dp lz unit }
                  | none => st
                let st :=
                  match oy with
                  | some ys => { st with last_y := parse_ad_coordinate ys ip dp lz unit }
                  | none => st
                { st with ops := alModify tool (fun op =>
                    { op with commands :=
                        op.commands ++ [DrillCommand.Hole st.last_x st.last_y] }) st.ops }
              else st
            | none => st
        | none => st

/-- parse_ad_excellon: parse an Altium Designer Excellon drill file. -/
def parse_ad_excellon (content : String) : DrillFile :=
  let lines := rustLines content
  let h := lines.foldl adHeaderLine adHeaderInit
  let ops0 := h.tool_map.map (fun p => (p.1, DrillOperation.mk p.2.1 p.2.2 []))
  let b := lines.foldl (adBodyLine h.integer_places h.decimal_places h.is_lz h.unit h.tool_map)
    ⟨none, false, dZero, dZero, true, ops0⟩
  ⟨(b.ops.map Prod.snd).filter (fun op => !op.commands.isEmpty)⟩

/-! ### The KiCad parser (parse_kicad_excellon) -/

/-- Whole-file hole type of a KiCad file: content containing the exact
substrings "NonPlated" or "NPTH" is NonPlated, else Plated. -/
def kicadHoleType (content : String) : HoleType :=
  if strContains content "NonPlated" || strContains content "NPTH" then
    HoleType.NonPlated
  else HoleType.Plated

/-- Header-pass state of parse_kicad_excellon. -/
structure KHeader where
  in_header : Bool
  tool_map : List (Nat × Dec)
deriving DecidableEq

/-- One header-pass line of parse_kicad_excellon. -/
def kicadHeaderLine (st : KHeader) (raw : List Char) : KHeader :=
  let line := trimL raw
  if line = ['%'] then { st with in_header := false }
  else if st.in_header then
    match kicadToolCaps line with
    | some (tc, dc) =>
      { st with tool_map := alInsert (parseU32 tc 0) (parseF64D dc) st.tool_map }
    | none => st
  else st

/-- Body-pass state of parse_kicad_excellon. -/
structure KBody where
  current_tool : Option Nat
  in_route : Bool
  route_start : Option (Dec × Dec)
  last_y : Dec
  in_header : Bool
  ops : List (Nat × DrillOperation)
deriving DecidableEq

/-- One body-pass line of parse_kicad_excellon.  Returns none exactly where
the Rust code indexes a regex capture group that did not participate in the
match (caps[1] / caps[2] on the optional groups of ROUTE_START_REGEX and
caps[1] on ROUTE_TO_REGEX), which aborts the process. -/
def kicadBodyLine (tm : List (Nat × Dec)) (st : KBody) (raw : List Char) :
    Option KBody :=
  let line := trimL raw
  if line = ['%'] then some { st with in_header := false }
  else if st.in_header || line.isEmpty || chPre [';'] line then some st
  else
    match toolSelectCaps line with
    | some tc =>
      let tool_num := parseU32 tc 0
      some (if (alLookup tool_num tm).isSome then { st with current_tool := some tool_num }
            else st)
    | none =>
    match routeCaps '0' line with
    | some (ox, oy) =>
      match ox, oy with
      | some xs, some ys =>
        let x := parseF64D xs
        let y := parseF64D ys
        some { st with route_start := some (x, y), last_y := y }
      | _, _ => none
    | none =>
    if line = "M15".toList then some { st with in_route := true }
    else
      match (if st.in_route then routeCaps '1' line else none) with
      | some (ox, oy) =>
        match ox with
        | none => none
        | some xs =>
          let end_x := parseF64D xs
          let end_y :=
            match oy with
            | none => st.last_y
            | some ys => (parseF64Core ys).getD st.last_y
          let st :=
            match st.current_tool, st.route_start with
            | some tool, some (sx, sy) =>
              { st with ops := alModify tool (fun op =>
                  { op with commands :=
                      op.commands ++ [DrillCommand.Slot sx sy end_x end_y] }) st.ops }
            | _, _ => st
          some { st with last_y := end_y }
      | none =>
      if line = "M16".toList then some { st with in_route := false, route_start := none }
      else if chPre ['X'] line && line.any (fun c => c = 'Y') then
        match xyCaps line with
        | some (xs, ys) =>
          match st.current_tool with
          | some tool =>
            some { st with ops := alModify tool (fun op =>
                { op with commands :=
                    op.commands ++ [DrillCommand.Hole (parseF64D xs) (parseF64D ys)] }) st.ops }
          | none => some st
        | none => some st
      else some st

/-- parse_kicad_excellon: parse a KiCad Excellon drill file.  none marks the
runtime abort described at kicadBodyLine. -/
def parse_kicad_excellon (content : String) : Option (DrillFile × HoleType) :=
  let hole_type := kicadHoleType content
  let lines := rustLines content
  let h := lines.foldl kicadHeaderLine ⟨true, []⟩
  let ops0 := h.tool_map.map (fun p => (p.1, DrillOperation.mk p.2 hole_type []))
  (lines.foldlM (kicadBodyLine h.tool_map) ⟨none, false, none, dZero, true, ops0⟩).map
    (fun b => (⟨(b.ops.map Prod.snd).filter (fun op => !op.commands.isEmpty)⟩, hole_type))

/-! ### Format detection and filename filters -/

/-- detect_drill_eda: KiCad marker, else the anchored AD tool pattern at the
start of the content, else an altium marker, else Unknown. -/
def detect_drill_eda (content : String) : DrillEdaType :=
  let lower := lowerL content.toList
  if chSub "kicad".toList lower then DrillEdaType.KiCad
  else if (adToolCaps content.toList).isSome then DrillEdaType.Altium
  else if chSub "altium".toList lower then DrillEdaType.Altium
  else DrillEdaType.Unknown

/-- is_drill_file: detect a drill file from its filename. -/
def is_drill_file (filename : String) : Bool :=
  let lower := String.mk (lowerL filename.toList)
  strEndsWith lower ".drl"
    || (strEndsWith lower ".txt" && (strContains lower "hole" || strContains lower "drill"))
    || strEndsWith lower ".tx1"
    || strEndsWith lower ".tx2"
    || strEndsWith lower ".tx3"
    || strEndsWith lower ".tx4"
    || strEndsWith lower ".tx5"
    || strEndsWith lower ".tx6"

/-- is_through_drill: .tx1 - .tx6 are blind/buried vias. -/
def is_through_drill (filename : String) : Bool :=
  let lower := String.mk (lowerL filename.toList)
  !(strEndsWith lower ".tx1"
    || strEndsWith lower ".tx2"
    || strEndsWith lower ".tx3"
    || strEndsWith lower ".tx4"
    || strEndsWith lower ".tx5"
    || strEndsWith lower ".tx6")

/-! ### Merge and split engine -/

/-- The bucket key (op.diameter * 100000.0) as u64: truncation toward zero
with saturation at the u64 bounds (negative values clamp to 0). -/
def keyU64 (d : Dec) : Nat :=
  if d.num < 0 then 0
  else min (d.num.toNat * 100000 / 10 ^ d.e) 18446744073709551615

/-- One step of merge_operations_by_diameter: extend the commands of an
existing bucket or insert a new one. -/
def mergeStep (m : List (Nat × DrillOperation)) (op : DrillOperation) :
    List (Nat × DrillOperation) :=
  let key := keyU64 op.diameter
  if (alLookup key m).isSome then
    alModify key (fun e => { e with commands := e.commands ++ op.commands }) m
  else alInsert key op m

/-- merge_operations_by_diameter: merge operations that have the same
diameter bucket key; the BTreeMap yields its values in ascending key order. -/
def merge_operations_by_diameter (ops : List DrillOperation) : List DrillOperation :=
  (ops.foldl mergeStep []).map Prod.snd

/-- Test for a plated operation. -/
def isPlatedOp (op : DrillOperation) : Bool :=
  match op.hole_type with
  | HoleType.Plated => true
  | HoleType.NonPlated => false

/-- Test for a non-plated operation. -/
def isNonPlatedOp (op : DrillOperation) : Bool :=
  match op.hole_type with
  | HoleType.Plated => false
  | HoleType.NonPlated => true

/-- merge_and_split_drills: partition all operations by hole type and merge
each bucket by diameter. -/
def merge_and_split_drills (files : List DrillFile) :
    Option DrillFile × Option DrillFile :=
  let all := (files.map (fun f => f.operations)).flatten
  let pth_ops := all.filter isPlatedOp
  let npth_ops := all.filter isNonPlatedOp
  let pth_merged := merge_operations_by_diameter pth_ops
  let npth_merged := merge_operations_by_diameter npth_ops
  (if pth_merged.isEmpty then none else some ⟨pth_merged⟩,
   if npth_merged.isEmpty then none else some ⟨npth_merged⟩)

/-! ### Canonical emitter (generate_jlc_excellon) and header decorator -/

/-- The components generate_header_info (header.rs) draws at run time: a
random software name, a random version string, and the current local time.
They are modelled as an explicit argument to the pipeline. -/
structure HeaderInfo where
  software_name : String
  version : String
  timestamp : String
deriving DecidableEq

/-- get_drill_header (header.rs), with the sampled HeaderInfo explicit. -/
def get_drill_header (info : HeaderInfo) (hole_type_str layer_name : String) : String :=
  ";TYPE=" ++ hole_type_str ++ "\n;Layer: " ++ layer_name ++ "\n;"
    ++ info.software_name ++ " " ++ info.version ++ ", " ++ info.timestamp
    ++ "\n;Gerber Generator version 0.3\n"

/-- Decimal digits of n (fuel-based structural recursion). -/
def natFuel : Nat → Nat → List Char
  | 0, _ => []
  | fuel + 1, n =>
    if n < 10 then [Char.ofNat (48 + n)]
    else natFuel fuel (n / 10) ++ [Char.ofNat (48 + n % 10)]

/-- Decimal rendering of a natural number. -/
def natToChars (n : Nat) : List Char := natFuel (n + 1) n

/-- Left-pad with zeros to width w. -/
def pad0 (w : Nat) (l : List Char) : List Char :=
  List.replicate (w - l.length) '0' ++ l

/-- The format string {:02} applied to a tool number. -/
def pad02 (n : Nat) : String := String.mk (pad0 2 (natToChars n))

/-- The format string {:.5} applied to a nonnegative value n / 10 ^ e:
round half up to 5 decimal places (an exact binary double never ties at the
fifth decimal, so the tie direction is immaterial for the embedded code). -/
def fmt5Nonneg (n : Nat) (e : Nat) : String :=
  let r := (2 * n * 100000 + 10 ^ e) / (2 * 10 ^ e)
  String.mk (natToChars (r / 100000)) ++ "." ++ String.mk (pad0 5 (natToChars (r % 100000)))

/-- The format string {:.5} on a Dec value. -/
def formatFixed5 (d : Dec) : String :=
  if d.num < 0 then "-" ++ fmt5Nonneg (-d.num).toNat d.e
  else fmt5Nonneg d.num.toNat d.e

/-- generate_jlc_excellon: serialize a merged program as JLC format Excellon
content. -/
def generate_jlc_excellon (info : HeaderInfo) (drill : DrillFile) (hole_type : HoleType) :
    String :=
  let p : String × String :=
    match hole_type with
    | HoleType.Plated => ("PLATED", "PTH_Through")
    | HoleType.NonPlated => ("NON_PLATED", "NPTH_Through")
  let header := get_drill_header info p.1 p.2 ++ "M48\n" ++ "METRIC,LZ,0000.00000\n"
  let toolDefs := String.join (drill.operations.enum.map (fun q =>
    ";Hole size " ++ String.mk (natToChars (q.1 + 1)) ++ " = "
      ++ formatFixed5 q.2.diameter ++ " METRIC\n"
      ++ "T" ++ pad02 (q.1 + 1) ++ "C" ++ formatFixed5 q.2.diameter ++ "\n"))
  let body := String.join (drill.operations.enum.map (fun q =>
    "T" ++ pad02 (q.1 + 1) ++ "\n"
      ++ String.join (q.2.commands.map (fun cmd =>
        match cmd with
        | DrillCommand.Hole x y => "X" ++ formatFixed5 x ++ "Y" ++ formatFixed5 y ++ "\n"
        | DrillCommand.Slot sx sy ex ey =>
          "X" ++ formatFixed5 sx ++ "Y" ++ formatFixed5 sy
            ++ "G85X" ++ formatFixed5 ex ++ "Y" ++ formatFixed5 ey ++ "\n"))))
  header ++ toolDefs ++ "%\n" ++ "G05\n" ++ "G90\n" ++ body ++ "M30\n"

/-! ### The pipeline (process_drill_files) -/

/-- Loop state of process_drill_files. -/
structure ProcState where
  all_files : List DrillFile
  warnings : List String
  has_kicad_pth : Bool
  has_kicad_npth : Bool
  kicad_pth_content : Option String
  kicad_npth_content : Option String
deriving DecidableEq

/-- The KiCad arm of the process_drill_files loop: the first PTH and NPTH
files are emitted directly, later files of the same class join the general
merge path. -/
def procKicadFile (info : HeaderInfo) (st : ProcState) (pr : DrillFile × HoleType) :
    ProcState :=
  match pr.2 with
  | HoleType.Plated =>
    if !st.has_kicad_pth then
      let c := some (generate_jlc_excellon info pr.1 HoleType.Plated)
      { st with kicad_pth_content := c, has_kicad_pth := true }
    else { st with all_files := st.all_files ++ [pr.1] }
  | HoleType.NonPlated =>
    if !st.has_kicad_npth then
      let c := some (generate_jlc_excellon info pr.1 HoleType.NonPlated)
      { st with kicad_npth_content := c, has_kicad_npth := true }
    else { st with all_files := st.all_files ++ [pr.1] }

/-- One iteration of the process_drill_files loop over (content, filename). -/
def procStep (info : HeaderInfo) (st : ProcState) (p : String × String) :
    Option ProcState :=
  if !is_through_drill p.2 then
    some { st with warnings := st.warnings
        ++ ["Skipped blind/buried via file: " ++ p.2 ++ ". JLC only supports through holes."] }
  else
    match detect_drill_eda p.1 with
    | DrillEdaType.KiCad => (parse_kicad_excellon p.1).map (procKicadFile info st)
    | _ => some { st with all_files := st.all_files ++ [parse_ad_excellon p.1] }

/-- Option::or. -/
def optOr (a b : Option String) : Option String :=
  match a with
  | some s => some s
  | none => b

/-- The tail of process_drill_files after the loop: merge the general files
if any, and prefer the merge-path outputs over the directly emitted KiCad
contents via Option::or. -/
def procFinalize (info : HeaderInfo) (st : ProcState) : DrillResult :=
  if !st.all_files.isEmpty then
    let ms := merge_and_split_drills st.all_files
    let pth_content := ms.1.map (fun f => generate_jlc_excellon info f HoleType.Plated)
    let npth_content := ms.2.map (fun f => generate_jlc_excellon info f HoleType.NonPlated)
    ⟨optOr pth_content st.kicad_pth_content,
     optOr npth_content st.kicad_npth_content,
     st.warnings⟩
  else ⟨st.kicad_pth_content, st.kicad_npth_content, st.warnings⟩

/-- The initial loop state of process_drill_files. -/
def procInit : ProcState := ⟨[], [], false, false, none, none⟩

/-- process_drill_files: the main entry point, with the sampled header
randomness explicit.  none marks the runtime abort of the KiCad parser. -/
def process_drill_files (info : HeaderInfo) (contents filenames : List String) :
    Option DrillResult :=
  ((contents.zip filenames).foldlM (procStep info) procInit).map (procFinalize info)

/-! ### Concrete inputs used by the theorems -/

/-- A fixed sample of the header randomness. -/
def infoA : HeaderInfo := ⟨"EasyEDA", "v2.1.1.0", "2024-01-01 00:00:00"⟩

/-- A second, different sample of the header randomness. -/
def infoB : HeaderInfo := ⟨"EasyEDA Pro", "v3.2.7.1", "2024-01-02 10:30:00"⟩

/-- A KiCad-detected drill file whose body holds a bare G00 line. -/
def badKicadContent : String := "kicad\n%\nG00\n"

/-- A KiCad PTH drill file: tool 1 of 0.5 mm, one hole at (1.0, 1.0). -/
def kc1 : String := "kicad\nT1C0.5\n%\nT1\nX1.0Y1.0\n"

/-- A KiCad PTH drill file: tool 1 of 0.6 mm, one hole at (2.0, 2.0). -/
def kc2 : String := "kicad\nT1C0.6\n%\nT1\nX2.0Y2.0\n"

/-- The parsed operation list of kc1. -/
def kc1Ops : DrillFile :=
  ⟨[⟨⟨5, 1⟩, HoleType.Plated, [DrillCommand.Hole ⟨10, 1⟩ ⟨10, 1⟩]⟩]⟩

/-- The parsed operation list of kc2. -/
def kc2Ops : DrillFile :=
  ⟨[⟨⟨6, 1⟩, HoleType.Plated, [DrillCommand.Hole ⟨20, 1⟩ ⟨20, 1⟩]⟩]⟩

/-- An Altium-style file: FILE_FORMAT=3:5 (so the token 100 decodes to the
value 100 under LZ), one tool, and the body sequence of the claim. -/
def c6Content : String :=
  "FILE_FORMAT=3:5\nT01F00S00C1.5\n%\nT01\nG00X100Y200\nM15\nG01X300Y200\nM16\n"

/-- A drill operation with the given diameter and no commands, used to probe
the merge bucketing. -/
def opOfDiam (d : Dec) : DrillOperation := ⟨d, HoleType.Plated, []⟩

/-- C1: the code aborts on this input (KiCad-detected content whose body
holds a G00 line with no X coordinate: drill.rs line 498 indexes the optional
capture group 1 of ROUTE_START_REGEX). -/
theorem c1_process_aborts_on_bare_g00 :
    process_drill_files infoA [badKicadContent] ["a.drl"] = none := by decide

/-- C3: neither diameter pair merges.  0.29999 mm and 0.30001 mm fall into
the distinct buckets trunc(29999) and trunc(30001); the claim asserts they
merge into one bucket, but the merged list keeps two operations. -/
theorem c3_counterexample :
    (merge_operations_by_diameter [opOfDiam ⟨29999, 5⟩, opOfDiam ⟨30001, 5⟩]).length ≠ 1 := by
  decide

/-- C3 amended: under the 100000-multiplier truncation rule, 0.29999 and
0.30001 mm do not merge (buckets 29999 and 30001), and 0.294 and 0.296 mm do
not merge either (buckets 29400 and 29600). -/
theorem c3_amended_neither_pair_merges :
    (merge_operations_by_diameter [opOfDiam ⟨29999, 5⟩, opOfDiam ⟨30001, 5⟩]).length = 2 ∧
    keyU64 ⟨29999, 5⟩ = 29999 ∧ keyU64 ⟨30001, 5⟩ = 30001 ∧
    (merge_operations_by_diameter [opOfDiam ⟨294, 3⟩, opOfDiam ⟨296, 3⟩]).length = 2 ∧
    keyU64 ⟨294, 3⟩ = 29400 ∧ keyU64 ⟨296, 3⟩ = 29600 := by
  decide

/-- C4: the claim is false: a file whose content is the lowercase string
npth contains "npth" case-insensitively, yet parse_kicad_excellon classifies
it Plated, because the source checks the exact substrings NonPlated and NPTH
case-sensitively. -/
theorem c4_counterexample :
    parse_kicad_excellon "npth" = some (⟨[]⟩, HoleType.Plated) ∧
    strContains (String.mk (lowerL "npth".toList)) "npth" = true := by
  decide

/-- C4 amended: the whole-file classification is NonPlated exactly when the
content contains one of the exact (case-sensitive) substrings NonPlated or
NPTH; parse_kicad_excellon returns that classification whenever it returns. -/
theorem c4_amended_case_sensitive (content : String) :
    (∀ r, parse_kicad_excellon content = some r → r.2 = kicadHoleType content) ∧
    (kicadHoleType content = HoleType.NonPlated ↔
      (strContains content "NonPlated" = true ∨ strContains content "NPTH" = true)) := by
  constructor
  · intro r hr
    unfold parse_kicad_excellon at hr
    simp only [Option.map_eq_some'] at hr
    obtain ⟨b, _, hb⟩ := hr
    rw [← hb]
  · unfold kicadHoleType
    by_cases h1 : strContains content "NonPlated" = true
    · simp [h1]
    · by_cases h2 : strContains content "NPTH" = true
      · simp [h1, h2]
      · simp [h1, h2]

/-- C4 witness: the amended theorem applied to the concrete content NPTH. -/
theorem c4_amended_witness :
    ((⟨[]⟩, HoleType.NonPlated) : DrillFile × HoleType).2 = kicadHoleType "NPTH" ∧
    (kicadHoleType "NPTH" = HoleType.NonPlated ↔
      (strContains "NPTH" "NonPlated" = true ∨ strContains "NPTH" "NPTH" = true)) :=
  ⟨(c4_amended_case_sensitive "NPTH").1 (⟨[]⟩, HoleType.NonPlated) (by decide),
   (c4_amended_case_sensitive "NPTH").2⟩

/-- C6: parsing a file whose body is the sequence G00X100Y200 / M15 /
G01X300Y200 / M16 (with a tool select, and a FILE_FORMAT under which the
tokens decode to their face value) yields exactly one Slot command from
(100, 200) to (300, 200) and zero Hole commands. -/
theorem c6_single_slot :
    parse_ad_excellon c6Content =
      ⟨[⟨⟨15, 1⟩, HoleType.Plated,
         [DrillCommand.Slot ⟨100, 0⟩ ⟨200, 0⟩ ⟨300, 0⟩ ⟨200, 0⟩]⟩]⟩ := by
  decide

/-- C8: decoding the token 100 with TrailingZero zero suppression, 2 decimal
digits and Inch unit yields the Dec value 25400 / 10 ^ 3, whose rational
value is exactly 25.4 (for any declared integer-digit count). -/
theorem c8_tz_inch_decode (integer_places : Nat) :
    parse_ad_coordinate "100".toList integer_places 2 false DrillUnit.Inch = ⟨25400, 3⟩ ∧
    Dec.toRat ⟨25400, 3⟩ = 127 / 5 := by
  refine ⟨rfl, ?_⟩
  norm_num [Dec.toRat]

/-! ### C2: merge bucketing rule -/

/-- The merge key the claim describes: round(d * 100000), half-up on the
nonnegative values at issue (an f64 never ties at this scale, so the tie
direction is immaterial). -/
def specRoundKey (d : Dec) : Nat :=
  if d.num < 0 then 0
  else (2 * d.num.toNat * 100000 + 10 ^ d.e) / (2 * 10 ^ d.e)

/-- C2: the claim is false: diameters 0.300002 mm and 0.299996 mm have the
same rounded key 30000, yet the code does not consolidate them (truncation
gives buckets 30000 and 29999). -/
theorem c2_counterexample :
    specRoundKey ⟨300002, 6⟩ = specRoundKey ⟨299996, 6⟩ ∧
    (merge_operations_by_diameter [opOfDiam ⟨300002, 6⟩, opOfDiam ⟨299996, 6⟩]).length ≠ 1 := by
  decide

/-- C2 amended: two operations in the same plating bucket are consolidated
into one DrillOperation iff the truncating cast (d * 100000) as u64 agrees
on their diameters. -/
theorem c2_amended_truncation (a b : DrillOperation) :
    (merge_operations_by_diameter [a, b]).length = 1 ↔
      keyU64 a.diameter = keyU64 b.diameter := by
  unfold merge_operations_by_diameter
  simp only [List.foldl_cons, List.foldl_nil]
  have h1 : mergeStep [] a = [(keyU64 a.diameter, a)] := by
    simp [mergeStep, alLookup, alInsert]
  rw [h1]
  by_cases h : keyU64 b.diameter = keyU64 a.diameter
  · simp [mergeStep, alLookup, alModify, h, eq_comm]
  · by_cases h2 : keyU64 b.diameter < keyU64 a.diameter
    · simp [mergeStep, alLookup, alModify, alInsert, h, h2, eq_comm]
      omega
    · simp [mergeStep, alLookup, alModify, alInsert, h, h2, eq_comm]
      omega

/-! ### C10: merge output order and first-seen representatives -/

theorem alModify_map_fst {β : Type} (k : Nat) (f : β → β) (m : List (Nat × β)) :
    (alModify k f m).map Prod.fst = m.map Prod.fst := by
  induction m with
  | nil => rfl
  | cons p t ih =>
    obtain ⟨k1, v1⟩ := p
    by_cases h : k = k1 <;> simp [alModify, h, ih]

theorem alInsert_mem {β : Type} {k : Nat} {v : β} {m : List (Nat × β)} {p : Nat × β}
    (hp : p ∈ alInsert k v m) : p = (k, v) ∨ p ∈ m := by
  induction m with
  | nil => simpa [alInsert] using hp
  | cons q t ih =>
    obtain ⟨k1, v1⟩ := q
    by_cases h1 : k < k1
    · simp [alInsert, h1] at hp
      rcases hp with h | h | h
      · exact Or.inl (by simp [h])
      · exact Or.inr (by simp [h])
      · exact Or.inr (by simp [h])
    · by_cases h2 : k = k1
      · simp [alInsert, h1, h2] at hp
        rcases hp with h | h
        · exact Or.inl (by simp [h, h2])
        · exact Or.inr (by simp [h])
      · simp [alInsert, h1, h2] at hp
        rcases hp with h | h
        · exact Or.inr (by simp [h])
        · rcases ih h with h3 | h3
          · exact Or.inl h3
          · exact Or.inr (by simp [h3])

theorem alModify_mem {β : Type} {k : Nat} {f : β → β} {m : List (Nat × β)} {p : Nat × β}
    (hp : p ∈ alModify k f m) : p ∈ m ∨ ∃ q, q ∈ m ∧ p.1 = q.1 ∧ p.2 = f q.2 := by
  induction m with
  | nil => simp [alModify] at hp
  | cons q t ih =>
    obtain ⟨k1, v1⟩ := q
    by_cases h : k = k1
    · simp [alModify, h] at hp
      rcases hp with h1 | h1
      · exact Or.inr ⟨(k1, v1), by simp [h1]⟩
      · exact Or.inl (by simp [h1])
    · simp [alModify, h] at hp
      rcases hp with h1 | h1
      · exact Or.inl (by simp [h1])
      · rcases ih h1 with h2 | h2
        · exact Or.inl (by simp [h2])
        · obtain ⟨q2, hq2, hk2, hv2⟩ := h2
          exact Or.inr ⟨q2, by simp [hq2], hk2, hv2⟩

theorem alLookup_isSome_iff {β : Type} (k : Nat) (m : List (Nat × β)) :
    (alLookup k m).isSome = true ↔ k ∈ m.map Prod.fst := by
  induction m with
  | nil => simp [alLookup]
  | cons q t ih =>
    obtain ⟨k1, v1⟩ := q
    by_cases h : k = k1 <;> simp [alLookup, h, ih]

theorem alInsert_map_fst_head {β : Type} (k : Nat) (v : β) (m : List (Nat × β)) :
    ∀ b ∈ ((alInsert k v m).map Prod.fst).head?, b = k ∨ b ∈ (m.map Prod.fst).head? := by
  intro b hb
  cases m with
  | nil => simp [alInsert] at hb; simp [hb]
  | cons q t =>
    obtain ⟨k1, v1⟩ := q
    by_cases h1 : k < k1
    · simp [alInsert, h1] at hb; simp [hb]
    · by_cases h2 : k = k1
      · simp [alInsert, h1, h2] at hb; simp [hb]
      · simp [alInsert, h1, h2] at hb; simp [hb]

theorem alInsert_map_fst_chain {β : Type} (k : Nat) (v : β) (m : List (Nat × β))
    (hc : List.Chain' (· < ·) (m.map Prod.fst)) :
    List.Chain' (· < ·) ((alInsert k v m).map Prod.fst) := by
  induction m with
  | nil => simp [alInsert]
  | cons q t ih =>
    obtain ⟨k1, v1⟩ := q
    rw [List.map_cons, List.chain'_cons'] at hc
    by_cases h1 : k < k1
    · simp only [alInsert, if_pos h1, List.map_cons]
      rw [List.chain'_cons', List.chain'_cons']
      exact ⟨by intro b hb; simp at hb; omega, hc⟩
    · by_cases h2 : k = k1
      · simp only [alInsert, if_neg h1, if_pos h2, List.map_cons]
        rw [List.chain'_cons']
        subst h2
        exact hc
      · simp only [alInsert, if_neg h1, if_neg h2, List.map_cons]
        rw [List.chain'_cons']
        refine ⟨?_, ih hc.2⟩
        intro b hb
        rcases alInsert_map_fst_head k v t b hb with h3 | h3
        · omega
        · exact hc.1 b h3

theorem alInsert_map_fst_mem_self {β : Type} (k : Nat) (v : β) (m : List (Nat × β)) :
    k ∈ (alInsert k v m).map Prod.fst := by
  induction m with
  | nil => simp [alInsert]
  | cons q t ih =>
    obtain ⟨k1, v1⟩ := q
    by_cases h1 : k < k1
    · simp [alInsert, h1]
    · by_cases h2 : k = k1 <;> simp [alInsert, h1, h2, ih]

theorem alInsert_mem_of_mem {β : Type} {k : Nat} {v : β} {m : List (Nat × β)} {p : Nat × β}
    (hp : p ∈ m) : p ∈ alInsert k v m ∨ p.1 = k := by
  induction m with
  | nil => simp at hp
  | cons q t ih =>
    obtain ⟨k1, v1⟩ := q
    rcases List.mem_cons.mp hp with h | h
    · by_cases h1 : k < k1
      · exact Or.inl (by simp [alInsert, h1, h])
      · by_cases h2 : k = k1
        · subst h
          exact Or.inr (by simp [h2])
        · exact Or.inl (by simp [alInsert, h1, h2, h])
    · by_cases h1 : k < k1
      · exact Or.inl (by simp [alInsert, h1, h])
      · by_cases h2 : k = k1
        · exact Or.inl (by simp [alInsert, h1, h2, h])
        · rcases ih h with h3 | h3
          · exact Or.inl (by simp [alInsert, h1, h2, h3])
          · exact Or.inr h3

theorem alInsert_map_fst_mem_mono {β : Type} {a : Nat} (k : Nat) (v : β) (m : List (Nat × β))
    (ha : a ∈ m.map Prod.fst) : a ∈ (alInsert k v m).map Prod.fst := by
  obtain ⟨p, hp, hpa⟩ := List.mem_map.mp ha
  rcases @alInsert_mem_of_mem _ k v _ _ hp with h | h
  · exact List.mem_map.mpr ⟨p, h, hpa⟩
  · rw [← hpa, h]
    exact alInsert_map_fst_mem_self k v m

/-- Invariant of the merge fold. -/
def mergeInv (processed : List DrillOperation) (m : List (Nat × DrillOperation)) : Prop :=
  List.Chain' (· < ·) (m.map Prod.fst) ∧
  (∀ p ∈ m, keyU64 p.2.diameter = p.1) ∧
  (∀ p ∈ m, ∃ hd, (processed.filter (fun o => keyU64 o.diameter == p.1)).head? = some hd ∧
      p.2.diameter = hd.diameter ∧ p.2.hole_type = hd.hole_type) ∧
  (∀ o ∈ processed, keyU64 o.diameter ∈ m.map Prod.fst)

theorem mergeStep_inv {processed : List DrillOperation} {m : List (Nat × DrillOperation)}
    (h : mergeInv processed m) (o : DrillOperation) :
    mergeInv (processed ++ [o]) (mergeStep m o) := by
  obtain ⟨hc, hk, hf, hcomp⟩ := h
  by_cases hl : (alLookup (keyU64 o.diameter) m).isSome = true
  · rw [mergeStep.eq_def]
    simp only [hl, if_true]
    refine ⟨?_, ?_, ?_, ?_⟩
    · rw [alModify_map_fst]; exact hc
    · intro p hp
      rcases alModify_mem hp with h1 | ⟨q, hq, hq1, hq2⟩
      · exact hk p h1
      · have : p.2.diameter = q.2.diameter := by rw [hq2]
        rw [this, hq1]
        exact hk q hq
    · intro p hp
      have key : ∃ q, q ∈ m ∧ p.1 = q.1 ∧ p.2.diameter = q.2.diameter ∧
          p.2.hole_type = q.2.hole_type := by
        rcases alModify_mem hp with h1 | ⟨q, hq, hq1, hq2⟩
        · exact ⟨p, h1, rfl, rfl, rfl⟩
        · exact ⟨q, hq, hq1, by rw [hq2], by rw [hq2]⟩
      obtain ⟨q, hq, hq1, hq2, hq3⟩ := key
      obtain ⟨hd, hhd, hd1, hd2⟩ := hf q hq
      refine ⟨hd, ?_, by rw [hq2, hd1], by rw [hq3, hd2]⟩
      rw [List.filter_append, List.head?_append, hq1, hhd]
      rfl
    · intro o1 ho1
      rw [alModify_map_fst]
      rcases List.mem_append.mp ho1 with h1 | h1
      · exact hcomp o1 h1
      · have : o1 = o := by simpa using h1
        subst this
        exact (alLookup_isSome_iff _ m).mp hl
  · rw [mergeStep.eq_def]
    simp only [hl, if_false]
    have hnone : ∀ x ∈ processed, ¬ keyU64 x.diameter = keyU64 o.diameter := by
      intro x hx hcontra
      apply hl
      rw [alLookup_isSome_iff]
      rw [← hcontra]
      exact hcomp x hx
    refine ⟨alInsert_map_fst_chain _ _ _ hc, ?_, ?_, ?_⟩
    · intro p hp
      rcases alInsert_mem hp with h1 | h1
      · rw [h1]
      · exact hk p h1
    · intro p hp
      rcases alInsert_mem hp with h1 | h1
      · subst h1
        refine ⟨o, ?_, rfl, rfl⟩
        rw [List.filter_append, List.head?_append]
        have hemp : processed.filter (fun x => keyU64 x.diameter == keyU64 o.diameter) = [] := by
          rw [List.filter_eq_nil_iff]
          intro x hx
          simpa using hnone x hx
        rw [hemp]
        simp
      · obtain ⟨hd, hhd, hd1, hd2⟩ := hf p h1
        refine ⟨hd, ?_, hd1, hd2⟩
        rw [List.filter_append, List.head?_append, hhd]
        rfl
    · intro o1 ho1
      rcases List.mem_append.mp ho1 with h1 | h1
      · exact alInsert_map_fst_mem_mono _ _ _ (hcomp o1 h1)
      · have : o1 = o := by simpa using h1
        subst this
        exact alInsert_map_fst_mem_self _ _ _

theorem mergeLoop_inv (rest : List DrillOperation) :
    ∀ (processed : List DrillOperation) (m : List (Nat × DrillOperation)),
      mergeInv processed m → mergeInv (processed ++ rest) (rest.foldl mergeStep m) := by
  induction rest with
  | nil => intro processed m h; simpa using h
  | cons o rest ih =>
    intro processed m h
    have h1 := mergeStep_inv h o
    have h2 := ih (processed ++ [o]) (mergeStep m o) h1
    simpa using h2

theorem mergeInv_init : mergeInv [] [] := by
  refine ⟨by simp, by simp, by simp, by simp⟩

/-- C10. -/
theorem c10_sorted_first_seen (ops : List DrillOperation) :
    List.Chain' (· < ·)
      ((merge_operations_by_diameter ops).map (fun op => keyU64 op.diameter)) ∧
    ∀ op ∈ merge_operations_by_diameter ops, ∃ hd,
      (ops.filter (fun o => keyU64 o.diameter == keyU64 op.diameter)).head? = some hd ∧
      op.diameter = hd.diameter ∧ op.hole_type = hd.hole_type := by
  have hinv := mergeLoop_inv ops [] [] mergeInv_init
  simp only [List.nil_append] at hinv
  obtain ⟨hc, hk, hf, _⟩ := hinv
  constructor
  · rw [merge_operations_by_diameter, List.map_map]
    have : ((ops.foldl mergeStep []).map ((fun op => keyU64 op.diameter) ∘ Prod.snd))
        = (ops.foldl mergeStep []).map Prod.fst := by
      apply List.map_congr_left
      intro p hp
      exact hk p hp
    rw [this]
    exact hc
  · intro op hop
    rw [merge_operations_by_diameter] at hop
    obtain ⟨p, hp, hp2⟩ := List.mem_map.mp hop
    obtain ⟨hd, hhd, hd1, hd2⟩ := hf p hp
    refine ⟨hd, ?_, by rw [← hp2]; exact hd1, by rw [← hp2]; exact hd2⟩
    rw [← hp2, hk p hp]
    exact hhd

/-- C10 witness: the theorem applied to a concrete operation list; the bucket
of diameter 0.5 mm keeps the first-seen operation data. -/
theorem c10_witness :
    List.Chain' (· < ·)
      ((merge_operations_by_diameter [opOfDiam ⟨6, 1⟩, opOfDiam ⟨5, 1⟩]).map
        (fun op => keyU64 op.diameter)) ∧
    (∃ hd, ([opOfDiam ⟨6, 1⟩, opOfDiam ⟨5, 1⟩].filter
        (fun o => keyU64 o.diameter == keyU64 (opOfDiam ⟨5, 1⟩).diameter)).head? = some hd ∧
      (opOfDiam ⟨5, 1⟩).diameter = hd.diameter ∧
      (opOfDiam ⟨5, 1⟩).hole_type = hd.hole_type) :=
  ⟨(c10_sorted_first_seen [opOfDiam ⟨6, 1⟩, opOfDiam ⟨5, 1⟩]).1,
   (c10_sorted_first_seen [opOfDiam ⟨6, 1⟩, opOfDiam ⟨5, 1⟩]).2 (opOfDiam ⟨5, 1⟩) (by decide)⟩

/-! ### C9: determinism up to the sampled header info -/

def procAgree (s t : ProcState) : Prop :=
  s.all_files = t.all_files ∧ s.warnings = t.warnings ∧
  s.has_kicad_pth = t.has_kicad_pth ∧ s.has_kicad_npth = t.has_kicad_npth

/-- procKicadFile preserves state agreement. -/
theorem procKicadFile_agree (i1 i2 : HeaderInfo) {s t : ProcState}
    (pr : DrillFile × HoleType) (h : procAgree s t) :
    procAgree (procKicadFile i1 s pr) (procKicadFile i2 t pr) := by
  obtain ⟨h1, h2, h3, h4⟩ := h
  obtain ⟨f, ht⟩ := pr
  unfold procKicadFile
  cases ht with
  | Plated =>
    dsimp only
    rw [h3]
    cases htp : t.has_kicad_pth with
    | false =>
      simp only [Bool.not_false, if_true]
      exact ⟨h1, h2, rfl, h4⟩
    | true =>
      simp only [Bool.not_true, Bool.false_eq_true, if_false]
      exact ⟨by rw [h1], h2, rfl, h4⟩
  | NonPlated =>
    dsimp only
    rw [h4]
    cases htp : t.has_kicad_npth with
    | false =>
      simp only [Bool.not_false, if_true]
      exact ⟨h1, h2, h3, rfl⟩
    | true =>
      simp only [Bool.not_true, Bool.false_eq_true, if_false]
      exact ⟨by rw [h1], h2, h3, rfl⟩

/-- Agreement lifted to the Option layer (abort agrees with abort). -/
def optAgree : Option ProcState → Option ProcState → Prop
  | none, none => True
  | some s, some t => procAgree s t
  | _, _ => False

/-- procStep preserves state agreement; aborts agree. -/
theorem procStep_agree (i1 i2 : HeaderInfo) {s t : ProcState} (p : String × String)
    (h : procAgree s t) : optAgree (procStep i1 s p) (procStep i2 t p) := by
  unfold procStep
  cases hth : is_through_drill p.2 with
  | false =>
    simp only [Bool.not_false, if_true]
    exact ⟨h.1, by rw [h.2.1], h.2.2.1, h.2.2.2⟩
  | true =>
    simp only [Bool.not_true, Bool.false_eq_true, if_false]
    cases hdet : detect_drill_eda p.1 with
    | KiCad =>
      cases hp : parse_kicad_excellon p.1 with
      | none =>
        simp only [Option.map_none']
        exact trivial
      | some pr =>
        simp only [Option.map_some']
        exact procKicadFile_agree i1 i2 pr h
    | Altium => exact ⟨by rw [h.1], h.2.1, h.2.2.1, h.2.2.2⟩
    | Unknown => exact ⟨by rw [h.1], h.2.1, h.2.2.1, h.2.2.2⟩

/-- The whole loop preserves state agreement. -/
theorem procLoop_agree (i1 i2 : HeaderInfo) (l : List (String × String)) :
    ∀ {s t : ProcState}, procAgree s t →
      optAgree (l.foldlM (procStep i1) s) (l.foldlM (procStep i2) t) := by
  induction l with
  | nil => intro s t h; exact h
  | cons x xs ih =>
    intro s t h
    have hstep := procStep_agree i1 i2 x h
    rw [List.foldlM_cons, List.foldlM_cons]
    cases hs : procStep i1 s x with
    | none =>
      cases ht : procStep i2 t x with
      | none => exact trivial
      | some t1 => rw [hs, ht] at hstep; exact hstep.elim
    | some s1 =>
      cases ht : procStep i2 t x with
      | none => rw [hs, ht] at hstep; exact hstep.elim
      | some t1 =>
        rw [hs, ht] at hstep
        simpa using ih hstep

/-- procFinalize passes the warnings through unchanged. -/
theorem procFinalize_warnings (i : HeaderInfo) (st : ProcState) :
    (procFinalize i st).warnings = st.warnings := by
  unfold procFinalize
  split <;> rfl

/-- The initial state agrees with itself. -/
theorem procAgree_init : procAgree procInit procInit := ⟨rfl, rfl, rfl, rfl⟩

/-- C9 amended: process_drill_files is a pure function of the sampled header
info and its inputs; its warnings and its abort behavior do not depend on the
header info at all.  (As sampled header infos differ between two real runs,
only these components are guaranteed identical across runs.) -/
theorem c9_amended_deterministic_up_to_header (i1 i2 : HeaderInfo)
    (contents filenames : List String) :
    Option.map DrillResult.warnings (process_drill_files i1 contents filenames)
      = Option.map DrillResult.warnings (process_drill_files i2 contents filenames) ∧
    (process_drill_files i1 contents filenames = none ↔
      process_drill_files i2 contents filenames = none) := by
  have h := procLoop_agree i1 i2 (contents.zip filenames) procAgree_init
  unfold process_drill_files
  cases h1 : (contents.zip filenames).foldlM (procStep i1) procInit with
  | none =>
    cases h2 : (contents.zip filenames).foldlM (procStep i2) procInit with
    | none =>
      simp only [Option.map_none']
      exact ⟨trivial, trivial⟩
    | some t1 => rw [h1, h2] at h; exact h.elim
  | some s1 =>
    cases h2 : (contents.zip filenames).foldlM (procStep i2) procInit with
    | none => rw [h1, h2] at h; exact h.elim
    | some t1 =>
      rw [h1, h2] at h
      simp only [Option.map_some']
      refine ⟨?_, ?_⟩
      · rw [procFinalize_warnings, procFinalize_warnings]
        exact congrArg some h.2.1
      · exact ⟨fun hc => (Option.some_ne_none _ hc).elim,
          fun hc => (Option.some_ne_none _ hc).elim⟩

/-- C9 counterexample: the claim is false: two runs over the same fixed
inputs, differing only in the sampled header randomness of header.rs
(software name, version, timestamp), return different DrillResult values. -/
theorem c9_counterexample :
    process_drill_files infoA [kc1] ["a.drl"] ≠ process_drill_files infoB [kc1] ["a.drl"] := by
  decide

/-! ### C7: multiple KiCad files of one plating class -/

/-- alModify preserves a per-value predicate stable under the update. -/
theorem alModify_pres {P : DrillOperation → Prop} {k : Nat} {f : DrillOperation → DrillOperation}
    {m : List (Nat × DrillOperation)} (hf : ∀ v, P v → P (f v)) (h : ∀ p ∈ m, P p.2) :
    ∀ p ∈ alModify k f m, P p.2 := by
  induction m with
  | nil => intro p hp; simp [alModify] at hp
  | cons q t ih =>
    obtain ⟨k1, v1⟩ := q
    intro p hp
    by_cases hk : k = k1
    · simp only [alModify, if_pos hk] at hp
      rcases List.mem_cons.mp hp with h1 | h1
      · rw [h1]
        exact hf v1 (h (k1, v1) (by simp))
      · exact h p (by simp [h1])
    · simp only [alModify, if_neg hk] at hp
      rcases List.mem_cons.mp hp with h1 | h1
      · exact h p (by simp [h1])
      · exact ih (fun q hq => h q (by simp [hq])) p h1

/-- Every branch of kicadBodyLine leaves ops unchanged or modifies one entry
by appending commands. -/
theorem kicadBodyLine_ops_shape {tm : List (Nat × Dec)} {st : KBody} {raw : List Char}
    {st1 : KBody} (h : kicadBodyLine tm st raw = some st1) :
    st1.ops = st.ops ∨ ∃ k cs, st1.ops =
      alModify k (fun op => { op with commands := op.commands ++ cs }) st.ops := by
  unfold kicadBodyLine at h
  dsimp only at h
  split at h
  · exact Or.inl (by cases h; rfl)
  · split at h
    · exact Or.inl (by cases h; rfl)
    · split at h
      · cases h
        split <;> exact Or.inl rfl
      · split at h
        · split at h
          · cases h; exact Or.inl rfl
          · exact absurd h (by simp)
        · split at h
          · exact Or.inl (by cases h; rfl)
          · split at h
            · split at h
              · exact absurd h (by simp)
              · cases h
                split
                · exact Or.inr ⟨_, _, rfl⟩
                · exact Or.inl rfl
            · split at h
              · exact Or.inl (by cases h; rfl)
              · split at h
                · split at h
                  · split at h
                    · cases h; exact Or.inr ⟨_, _, rfl⟩
                    · exact Or.inl (by cases h; rfl)
                  · exact Or.inl (by cases h; rfl)
                · exact Or.inl (by cases h; rfl)

/-- The KiCad body fold only appends commands, so a per-operation hole type
invariant over the ops map survives it. -/
theorem kicadFold_hole_pres {tm : List (Nat × Dec)} {ht : HoleType} :
    ∀ (lines : List (List Char)) (st0 b : KBody),
      List.foldlM (kicadBodyLine tm) st0 lines = some b →
      (∀ p ∈ st0.ops, p.2.hole_type = ht) → ∀ p ∈ b.ops, p.2.hole_type = ht := by
  intro lines
  induction lines with
  | nil =>
    intro st0 b h hinv
    cases h
    exact hinv
  | cons l rest ih =>
    intro st0 b h hinv
    rw [List.foldlM_cons] at h
    cases hs : kicadBodyLine tm st0 l with
    | none => rw [hs] at h; exact absurd h (by simp)
    | some st1 =>
      rw [hs] at h
      have h1 : ∀ p ∈ st1.ops, p.2.hole_type = ht := by
        rcases kicadBodyLine_ops_shape hs with he | ⟨k, cs, he⟩
        · rw [he]; exact hinv
        · rw [he]
          exact @alModify_pres (fun v => v.hole_type = ht) _ _ _ (fun v hv => hv) hinv
      exact ih st1 b (by simpa using h) h1

/-- Every operation of a parsed KiCad file carries the whole-file hole type. -/
theorem parse_kicad_ops_hole {c : String} {f : DrillFile} {ht : HoleType}
    (h : parse_kicad_excellon c = some (f, ht)) :
    ∀ op ∈ f.operations, op.hole_type = ht := by
  unfold parse_kicad_excellon at h
  simp only [Option.map_eq_some'] at h
  obtain ⟨b, hb, hfb⟩ := h
  have hht : ht = kicadHoleType c := by
    have := congrArg Prod.snd hfb
    simpa using this.symm
  have hf : f = ⟨(b.ops.map Prod.snd).filter (fun op => !op.commands.isEmpty)⟩ := by
    have := congrArg Prod.fst hfb
    simpa using this.symm
  have hinv : ∀ p ∈ (List.foldl kicadHeaderLine ⟨true, []⟩ (rustLines c)).tool_map.map
      (fun p => (p.1, DrillOperation.mk p.2 (kicadHoleType c) [])), p.2.hole_type = ht := by
    intro p hp
    obtain ⟨q, _, hq⟩ := List.mem_map.mp hp
    rw [← hq, hht]
  have hb2 := kicadFold_hole_pres (rustLines c) _ b hb hinv
  intro op hop
  rw [hf] at hop
  have hop2 : op ∈ b.ops.map Prod.snd := List.mem_of_mem_filter hop
  obtain ⟨p, hp, hps⟩ := List.mem_map.mp hop2
  rw [← hps]
  exact hb2 p hp

/-- alModify never empties a map. -/
theorem alModify_ne_nil {k : Nat} {f : DrillOperation → DrillOperation}
    {m : List (Nat × DrillOperation)} (h : m ≠ []) : alModify k f m ≠ [] := by
  cases m with
  | nil => exact absurd rfl h
  | cons q t =>
    obtain ⟨k1, v1⟩ := q
    by_cases hk : k = k1 <;> simp [alModify, hk]

/-- alInsert never returns an empty map. -/
theorem alInsert_ne_nil {k : Nat} {v : DrillOperation} {m : List (Nat × DrillOperation)} :
    alInsert k v m ≠ [] := by
  cases m with
  | nil => simp [alInsert]
  | cons q t =>
    obtain ⟨k1, v1⟩ := q
    by_cases h1 : k < k1
    · simp [alInsert, h1]
    · by_cases h2 : k = k1 <;> simp [alInsert, h1, h2]

/-- One merge step never empties the bucket map. -/
theorem mergeStep_ne_nil {m : List (Nat × DrillOperation)} (o : DrillOperation) :
    mergeStep m o ≠ [] := by
  unfold mergeStep
  dsimp only
  split
  · rename_i hl
    apply alModify_ne_nil
    intro he
    rw [he] at hl
    simp [alLookup] at hl
  · exact alInsert_ne_nil

/-- The merge fold keeps a nonempty bucket map nonempty. -/
theorem mergeFold_ne_nil (l : List DrillOperation) :
    ∀ m : List (Nat × DrillOperation), m ≠ [] → l.foldl mergeStep m ≠ [] := by
  induction l with
  | nil => intro m h; exact h
  | cons o rest ih =>
    intro m h
    rw [List.foldl_cons]
    exact ih (mergeStep m o) (mergeStep_ne_nil o)

/-- Merging a nonempty operation list yields a nonempty result. -/
theorem mergeOps_ne_nil {l : List DrillOperation} (h : l ≠ []) :
    merge_operations_by_diameter l ≠ [] := by
  cases l with
  | nil => exact absurd rfl h
  | cons o rest =>
    unfold merge_operations_by_diameter
    rw [List.foldl_cons]
    have := mergeFold_ne_nil rest (mergeStep [] o) (mergeStep_ne_nil o)
    simpa using this

/-- First loop iteration on a KiCad PTH file: the file is emitted directly. -/
theorem c7_step1 (info : HeaderInfo) (c1 n1 : String) (f1 : DrillFile)
    (h1 : is_through_drill n1 = true)
    (d1 : detect_drill_eda c1 = DrillEdaType.KiCad)
    (p1 : parse_kicad_excellon c1 = some (f1, HoleType.Plated)) :
    procStep info procInit (c1, n1) =
      some ⟨[], [], true, false,
        some (generate_jlc_excellon info f1 HoleType.Plated), none⟩ := by
  unfold procStep
  dsimp only
  rw [h1, d1, p1]
  simp only [Bool.not_true, Bool.false_eq_true, if_false, Option.map_some']
  unfold procKicadFile
  rfl

/-- Second loop iteration on a KiCad PTH file: the PTH slot being taken, the
file is routed into the general merge path. -/
theorem c7_step2 (info : HeaderInfo) (c2 n2 : String) (f2 : DrillFile) (g1 : Option String)
    (h2 : is_through_drill n2 = true)
    (d2 : detect_drill_eda c2 = DrillEdaType.KiCad)
    (p2 : parse_kicad_excellon c2 = some (f2, HoleType.Plated)) :
    procStep info ⟨[], [], true, false, g1, none⟩ (c2, n2) =
      some ⟨[f2], [], true, false, g1, none⟩ := by
  unfold procStep
  dsimp only
  rw [h2, d2, p2]
  simp only [Bool.not_true, Bool.false_eq_true, if_false, Option.map_some']
  unfold procKicadFile
  rfl

/-- C7 amended: with two through-hole KiCad PTH files, the first is emitted
directly but then discarded: the final PTH output is the merged program of
the second file alone (Option::or prefers the merge-path result). -/
theorem c7_amended_merge_replaces_first (info : HeaderInfo) (c1 c2 n1 n2 : String)
    (f1 f2 : DrillFile)
    (h1 : is_through_drill n1 = true) (h2 : is_through_drill n2 = true)
    (d1 : detect_drill_eda c1 = DrillEdaType.KiCad)
    (d2 : detect_drill_eda c2 = DrillEdaType.KiCad)
    (p1 : parse_kicad_excellon c1 = some (f1, HoleType.Plated))
    (p2 : parse_kicad_excellon c2 = some (f2, HoleType.Plated))
    (hne : f2.operations ≠ []) :
    process_drill_files info [c1, c2] [n1, n2] =
      some ⟨some (generate_jlc_excellon info
              ⟨merge_operations_by_diameter f2.operations⟩ HoleType.Plated),
            none, []⟩ := by
  unfold process_drill_files
  have hz : ([c1, c2].zip [n1, n2]) = [(c1, n1), (c2, n2)] := rfl
  rw [hz, List.foldlM_cons, c7_step1 info c1 n1 f1 h1 d1 p1]
  have hb : (some (⟨[], [], true, false,
      some (generate_jlc_excellon info f1 HoleType.Plated), none⟩ : ProcState) >>=
        fun s => List.foldlM (procStep info) s [(c2, n2)]) =
      List.foldlM (procStep info)
        ⟨[], [], true, false, some (generate_jlc_excellon info f1 HoleType.Plated), none⟩
        [(c2, n2)] := rfl
  rw [hb, List.foldlM_cons, c7_step2 info c2 n2 f2 _ h2 d2 p2]
  have hb2 : (some (⟨[f2], [], true, false,
      some (generate_jlc_excellon info f1 HoleType.Plated), none⟩ : ProcState) >>=
        fun s => List.foldlM (procStep info) s []) =
      some (⟨[f2], [], true, false,
        some (generate_jlc_excellon info f1 HoleType.Plated), none⟩ : ProcState) := rfl
  rw [hb2, Option.map_some']
  congr 1
  unfold procFinalize
  dsimp only
  simp only [List.isEmpty_cons, Bool.not_false, if_true]
  have hms : merge_and_split_drills [f2] =
      (some ⟨merge_operations_by_diameter f2.operations⟩, none) := by
    unfold merge_and_split_drills
    dsimp only
    have hall : ([f2].map (fun f => f.operations)).flatten = f2.operations := by
      simp
    rw [hall]
    have hp : f2.operations.filter isPlatedOp = f2.operations := by
      apply List.filter_eq_self.mpr
      intro a ha
      unfold isPlatedOp
      rw [parse_kicad_ops_hole p2 a ha]
    have hn : f2.operations.filter isNonPlatedOp = [] := by
      apply List.filter_eq_nil_iff.mpr
      intro a ha
      unfold isNonPlatedOp
      rw [parse_kicad_ops_hole p2 a ha]
      simp
    rw [hp, hn]
    have hmne : (merge_operations_by_diameter f2.operations).isEmpty = false := by
      cases hM : merge_operations_by_diameter f2.operations with
      | nil => exact absurd hM (mergeOps_ne_nil hne)
      | cons a t => rfl
    rw [hmne]
    have hemp : (merge_operations_by_diameter ([] : List DrillOperation)).isEmpty = true := rfl
    rw [hemp]
    rfl
  rw [hms]
  rfl

/-- C7 witness: the amended theorem applied to two concrete KiCad PTH files
(0.5 mm hole at (1,1); 0.6 mm hole at (2,2)). -/
theorem c7_amended_witness :
    process_drill_files infoA [kc1, kc2] ["a.drl", "b.drl"] =
      some ⟨some (generate_jlc_excellon infoA
              ⟨merge_operations_by_diameter kc2Ops.operations⟩ HoleType.Plated),
            none, []⟩ :=
  c7_amended_merge_replaces_first infoA kc1 kc2 "a.drl" "b.drl" kc1Ops kc2Ops
    (by decide) (by decide) (by decide) (by decide) (by decide) (by decide) (by decide)

/-- C7 counterexample: the claim is false: with two included KiCad PTH
files, the PTH output does not preserve the first file (its hole would be
emitted as X1.00000Y1.00000, which generate_jlc_excellon would produce for
it, but the emitted PTH content lacks that line). -/
theorem c7_counterexample :
    Option.map (fun r => Option.map (fun s => strContains s "X1.00000Y1.00000") r.pth_content)
        (process_drill_files infoA [kc1, kc2] ["a.drl", "b.drl"]) = some (some false) ∧
    parse_kicad_excellon kc1 = some (kc1Ops, HoleType.Plated) ∧
    strContains (generate_jlc_excellon infoA kc1Ops HoleType.Plated) "X1.00000Y1.00000" = true := by
  decide

/-! ### C5 base lemmas: spans, trims, line splitting -/

/-- takeWhile/dropWhile on a run followed by a stopper. -/
theorem span_exact {p : Char → Bool} {a : List Char} {b : Char} {r : List Char}
    (ha : ∀ c ∈ a, p c = true) (hb : p b = false) :
    (a ++ b :: r).takeWhile p = a ∧ (a ++ b :: r).dropWhile p = b :: r := by
  induction a with
  | nil => simp [List.takeWhile, List.dropWhile, hb]
  | cons c t ih =>
    have hc : p c = true := ha c (by simp)
    have iht := ih (fun x hx => ha x (by simp [hx]))
    simp only [List.cons_append, List.takeWhile_cons, List.dropWhile_cons, hc, if_true]
    exact ⟨by rw [iht.1], by rw [iht.2]⟩

/-- takeWhile/dropWhile on an all-run list. -/
theorem span_all {p : Char → Bool} {a : List Char} (ha : ∀ c ∈ a, p c = true) :
    a.takeWhile p = a ∧ a.dropWhile p = [] := by
  induction a with
  | nil => simp
  | cons c t ih =>
    have hc : p c = true := ha c (by simp)
    have iht := ih (fun x hx => ha x (by simp [hx]))
    simp only [List.takeWhile_cons, List.dropWhile_cons, hc, if_true]
    exact ⟨by rw [iht.1], by rw [iht.2]⟩

/-- dropWhile is the identity when no element satisfies the predicate. -/
theorem dropWhile_none {p : Char → Bool} {l : List Char}
    (h : ∀ c ∈ l, p c = false) : l.dropWhile p = l := by
  cases l with
  | nil => rfl
  | cons c t => simp [List.dropWhile_cons, h c (by simp)]

/-- trimL is the identity on lines without whitespace characters. -/
theorem trimL_id {l : List Char} (h : ∀ c ∈ l, isWs c = false) : trimL l = l := by
  unfold trimL
  rw [dropWhile_none h]
  rw [dropWhile_none (fun c hc => h c (List.mem_reverse.mp hc))]
  exact List.reverse_reverse l

/-- chPre implies membership of every pattern character. -/
theorem chPre_mem {pat l : List Char} (h : chPre pat l = true) : ∀ c ∈ pat, c ∈ l := by
  induction pat generalizing l with
  | nil => intro c hc; simp at hc
  | cons p ps ih =>
    cases l with
    | nil => simp [chPre] at h
    | cons d t =>
      simp only [chPre, Bool.and_eq_true, decide_eq_true_eq] at h
      intro c hc
      rcases List.mem_cons.mp hc with h1 | h1
      · rw [h1, ← h.1]; simp
      · exact List.mem_cons_of_mem d (ih h.2 c h1)

/-- chSub implies membership of every pattern character. -/
theorem chSub_mem {pat l : List Char} (h : chSub pat l = true) : ∀ c ∈ pat, c ∈ l := by
  induction l with
  | nil =>
    intro c hc
    unfold chSub at h
    cases pat with
    | nil => simp at hc
    | cons a b => simp at h
  | cons d t ih =>
    unfold chSub at h
    rcases Bool.or_eq_true_iff.mp h with h1 | h1
    · exact chPre_mem h1
    · intro c hc
      exact List.mem_cons_of_mem d (ih h1 c hc)

/-- litStr success implies membership of every pattern character. -/
theorem litStr_mem {pat l r : List Char} (h : litStr pat l = some r) : ∀ c ∈ pat, c ∈ l := by
  induction pat generalizing l with
  | nil => intro c hc; simp at hc
  | cons p ps ih =>
    cases l with
    | nil => simp [litStr] at h
    | cons d t =>
      simp only [litStr] at h
      by_cases hd : d = p
      · rw [if_pos hd] at h
        intro c hc
        rcases List.mem_cons.mp hc with h1 | h1
        · rw [h1, ← hd]; simp
        · exact List.mem_cons_of_mem d (ih h c h1)
      · rw [if_neg hd] at h; exact absurd h (by simp)

/-- splitNl splits off a first newline-free line. -/
theorem splitNl_append {l rest : List Char} (h : ∀ c ∈ l, ¬ c = '\n') :
    splitNl (l ++ '\n' :: rest) = l :: splitNl rest := by
  induction l with
  | nil => simp [splitNl]
  | cons c t ih =>
    have hc : ¬ c = '\n' := h c (by simp)
    have iht := ih (fun x hx => h x (by simp [hx]))
    simp only [List.cons_append, splitNl, List.append_eq, if_neg hc]
    rw [iht]
    rfl

/-! ### C5 rendered inputs -/

/-- The characters that may occur in the rendered files of the C5 family. -/
def renderChar (c : Char) : Bool :=
  isCoordChar c || c = 'T' || c = 'F' || c = 'S' || c = 'C' || c = 'G' || c = 'M'
    || c = 'X' || c = 'Y' || c = '%'

/-- A coordinate token decoded identically by both parsers: nonempty, within
the class [0-9.-], containing a decimal point, and f64-parsable. -/
def goodTok (t : List Char) : Bool :=
  !t.isEmpty && t.all isCoordChar && t.any (fun c => c = '.') && (parseF64Core t).isSome

/-- A nonempty digit string. -/
def goodDigits (n : List Char) : Bool := !n.isEmpty && n.all isDig

/-- A nonempty diameter token within [0-9.]. -/
def goodDiam (d : List Char) : Bool := !d.isEmpty && d.all isDiamChar

/-- One body element: a tool select, a hole line carrying both axes, or a
complete routing block G00/M15/one G01/M16 with explicit coordinates. -/
inductive BodyItem
  | toolSel (n : List Char)
  | holeAt (tx ty : List Char)
  | slotBlock (sx sy ex ey : List Char)

/-- Well-formedness of one body element. -/
def itemWf : BodyItem → Bool
  | BodyItem.toolSel n => goodDigits n
  | BodyItem.holeAt tx ty => goodTok tx && goodTok ty
  | BodyItem.slotBlock sx sy ex ey => goodTok sx && goodTok sy && goodTok ex && goodTok ey

/-- The lines of one body element, common to both dialects. -/
def renderItem : BodyItem → List (List Char)
  | BodyItem.toolSel n => ['T' :: n]
  | BodyItem.holeAt tx ty => ['X' :: (tx ++ 'Y' :: ty)]
  | BodyItem.slotBlock sx sy ex ey =>
    ['G' :: '0' :: '0' :: 'X' :: (sx ++ 'Y' :: sy), "M15".toList,
     'G' :: '0' :: '1' :: 'X' :: (ex ++ 'Y' :: ey), "M16".toList]

/-- The body lines of an element list. -/
def renderBody (items : List BodyItem) : List (List Char) :=
  (items.map renderItem).flatten

/-- An Altium tool-definition line T{n}F00S00C{d}. -/
def adToolLine (p : List Char × List Char) : List Char :=
  'T' :: (p.1 ++ 'F' :: '0' :: '0' :: 'S' :: '0' :: '0' :: 'C' :: p.2)

/-- A KiCad tool-definition line T{n}C{d}. -/
def kicadToolLine (p : List Char × List Char) : List Char :=
  'T' :: (p.1 ++ 'C' :: p.2)

/-- Join lines with a newline after each. -/
def unlinesL (ls : List (List Char)) : List Char :=
  (ls.map (fun l => l ++ ['\n'])).flatten

/-- The full rendered Altium-dialect file. -/
def renderAdContent (tools : List (List Char × List Char)) (items : List BodyItem) : String :=
  String.mk (unlinesL (tools.map adToolLine ++ [['%']] ++ renderBody items))

/-- The full rendered KiCad-dialect file. -/
def renderKicadContent (tools : List (List Char × List Char)) (items : List BodyItem) : String :=
  String.mk (unlinesL (tools.map kicadToolLine ++ [['%']] ++ renderBody items))

/-- Each unlinesL block of a nonempty list ends with a newline. -/
theorem unlinesL_getLast : ∀ (t : List (List Char)) (l : List Char),
    (unlinesL (l :: t)).getLast? = some '\n' := by
  intro t
  induction t with
  | nil =>
    intro l
    show ((l ++ ['\n']) ++ unlinesL []).getLast? = some '\n'
    simp [unlinesL]
  | cons m r ih =>
    intro l
    show ((l ++ ['\n']) ++ unlinesL (m :: r)).getLast? = some '\n'
    rw [List.getLast?_append_of_ne_nil]
    · exact ih m
    · intro hcon
      have h1 : unlinesL (m :: r) = (m ++ ['\n']) ++ unlinesL r := by simp [unlinesL]
      rw [h1] at hcon
      exact absurd (congrArg List.length hcon) (by simp)

/-- stripCr is the identity on lines of render characters. -/
theorem stripCr_id {l : List Char} (h : ∀ c ∈ l, renderChar c = true) :
    stripCr l = l := by
  unfold stripCr
  cases hl : l.getLast? with
  | none => rfl
  | some c =>
    have hc : c ∈ l := by
      have h2 := List.mem_getLast?_eq_getLast (show c ∈ l.getLast? by rw [hl]; rfl)
      obtain ⟨hne, he⟩ := h2
      rw [he]
      exact List.getLast_mem hne
    have := h c hc
    by_cases hcr : c = '\r'
    · rw [hcr] at this
      simp [renderChar, isCoordChar, isDig] at this
    · rw [if_neg (by simp [hcr])]

/-- rustLines is a left inverse of unlinesL on render-character lines. -/
theorem rustLines_unlines {ls : List (List Char)}
    (h : ∀ l ∈ ls, ∀ c ∈ l, renderChar c = true) :
    rustLines (String.mk (unlinesL ls)) = ls := by
  have hnl : ∀ l ∈ ls, ∀ c ∈ l, ¬ c = '\n' := by
    intro l hl c hc he
    have := h l hl c hc
    rw [he] at this
    simp [renderChar, isCoordChar, isDig] at this
  have hsplit : splitNl (unlinesL ls) = ls ++ [[]] := by
    induction ls with
    | nil => rfl
    | cons l t ih =>
      have h1 : unlinesL (l :: t) = l ++ '\n' :: unlinesL t := by
        simp [unlinesL]
      rw [h1, splitNl_append (hnl l (by simp))]
      rw [ih (fun x hx c hc => h x (by simp [hx]) c hc)
        (fun x hx c hc => hnl x (by simp [hx]) c hc)]
      rfl
  cases hls : ls with
  | nil => rfl
  | cons l t =>
    subst hls
    have hne : unlinesL (l :: t) ≠ [] := by
      intro hcon
      have h1 : unlinesL (l :: t) = (l ++ ['\n']) ++ unlinesL t := by simp [unlinesL]
      rw [h1] at hcon
      exact absurd (congrArg List.length hcon) (by simp)
    unfold rustLines
    have htl : (String.mk (unlinesL (l :: t))).toList = unlinesL (l :: t) := rfl
    rw [htl]
    rw [if_neg (by simpa using hne)]
    rw [unlinesL_getLast t l]
    dsimp only
    rw [if_pos rfl]
    rw [hsplit]
    rw [List.dropLast_concat]
    have : ∀ x ∈ l :: t, stripCr x = x := fun x hx => stripCr_id (h x hx)
    calc (l :: t).map stripCr = (l :: t).map id := List.map_congr_left (fun x hx => this x hx)
    _ = l :: t := List.map_id (l :: t)

/-! ### C5 matcher evaluation lemmas -/

/-- run1 on a run followed by a stopper. -/
theorem run1_exact {p : Char → Bool} {a : List Char} {b : Char} {r : List Char}
    (ha : ∀ c ∈ a, p c = true) (hb : p b = false) (hne : a ≠ []) :
    run1 p (a ++ b :: r) = some (a, b :: r) := by
  unfold run1
  rw [(span_exact ha hb).1, (span_exact ha hb).2]
  rw [if_neg (by simpa using hne)]

/-- run1 on a pure run. -/
theorem run1_all {p : Char → Bool} {a : List Char}
    (ha : ∀ c ∈ a, p c = true) (hne : a ≠ []) :
    run1 p a = some (a, []) := by
  unfold run1
  rw [(span_all ha).1, (span_all ha).2]
  rw [if_neg (by simpa using hne)]

theorem goodDigits_all {n : List Char} (h : goodDigits n = true) :
    ∀ c ∈ n, isDig c = true := by
  unfold goodDigits at h
  exact fun c hc => List.all_eq_true.mp (Bool.and_eq_true_iff.mp h).2 c hc

theorem goodDigits_ne {n : List Char} (h : goodDigits n = true) : n ≠ [] := by
  unfold goodDigits at h
  have := (Bool.and_eq_true_iff.mp h).1
  simpa using this

theorem goodDiam_all {n : List Char} (h : goodDiam n = true) :
    ∀ c ∈ n, isDiamChar c = true := by
  unfold goodDiam at h
  exact fun c hc => List.all_eq_true.mp (Bool.and_eq_true_iff.mp h).2 c hc

theorem goodDiam_ne {n : List Char} (h : goodDiam n = true) : n ≠ [] := by
  unfold goodDiam at h
  have := (Bool.and_eq_true_iff.mp h).1
  simpa using this

theorem goodTok_all {t : List Char} (h : goodTok t = true) :
    ∀ c ∈ t, isCoordChar c = true := by
  unfold goodTok at h
  have h1 := (Bool.and_eq_true_iff.mp (Bool.and_eq_true_iff.mp
    (Bool.and_eq_true_iff.mp h).1).1).2
  exact fun c hc => List.all_eq_true.mp h1 c hc

theorem goodTok_ne {t : List Char} (h : goodTok t = true) : t ≠ [] := by
  unfold goodTok at h
  have h1 := (Bool.and_eq_true_iff.mp (Bool.and_eq_true_iff.mp
    (Bool.and_eq_true_iff.mp h).1).1).1
  simpa using h1

theorem goodTok_dot {t : List Char} (h : goodTok t = true) :
    t.any (fun c => c = '.') = true := by
  unfold goodTok at h
  exact (Bool.and_eq_true_iff.mp (Bool.and_eq_true_iff.mp h).1).2

theorem goodTok_parse {t : List Char} (h : goodTok t = true) :
    (parseF64Core t).isSome = true := by
  unfold goodTok at h
  exact (Bool.and_eq_true_iff.mp h).2

/-- lit consumes its own character. -/
theorem lit_self (c : Char) (rest : List Char) : lit c (c :: rest) = some rest := by
  unfold lit
  dsimp only
  rw [if_pos rfl]

/-- litStr consumes its own pattern. -/
theorem litStr_refl : ∀ (pat rest : List Char), litStr pat (pat ++ rest) = some rest := by
  intro pat
  induction pat with
  | nil => intro rest; rfl
  | cons p ps ih =>
    intro rest
    show litStr (p :: ps) (p :: (ps ++ rest)) = some rest
    unfold litStr
    rw [if_pos rfl]
    exact ih rest

/-- An optional group hitting a run followed by a stopper. -/
theorem optGroup_hit {c : Char} {p : Char → Bool} {a : List Char} {b : Char} {r : List Char}
    (ha : ∀ x ∈ a, p x = true) (hb : p b = false) (hne : a ≠ []) :
    optGroup c p (c :: (a ++ b :: r)) = (some a, b :: r) := by
  unfold optGroup
  dsimp only
  rw [if_pos rfl, run1_exact ha hb hne]

/-- An optional group hitting a run that reaches the end of the line. -/
theorem optGroup_all {c : Char} {p : Char → Bool} {a : List Char}
    (ha : ∀ x ∈ a, p x = true) (hne : a ≠ []) :
    optGroup c p (c :: a) = (some a, []) := by
  unfold optGroup
  dsimp only
  rw [if_pos rfl, run1_all ha hne]

/-- TOOL_SELECT_REGEX matches a rendered tool-select line. -/
theorem toolSelectCaps_T {n : List Char} (hn : goodDigits n = true) :
    toolSelectCaps ('T' :: n) = some n := by
  unfold toolSelectCaps
  rw [lit_self]
  simp only [Option.bind_eq_bind, Option.some_bind]
  rw [run1_all (goodDigits_all hn) (goodDigits_ne hn)]
  rfl

/-- COORD_REGEX captures both axes of a rendered hole line. -/
theorem coordCaps_XY {tx ty : List Char} (hx : goodTok tx = true) (hy : goodTok ty = true) :
    coordCaps ('X' :: (tx ++ 'Y' :: ty)) = some (some tx, some ty) := by
  unfold coordCaps
  rw [optGroup_hit (goodTok_all hx) (by decide) (goodTok_ne hx)]
  dsimp only
  rw [optGroup_all (goodTok_all hy) (goodTok_ne hy)]
  rfl

/-- ROUTE_START/ROUTE_TO capture both axes of a rendered route line. -/
theorem routeCaps_G {g : Char} {sx sy : List Char}
    (hx : goodTok sx = true) (hy : goodTok sy = true) :
    routeCaps g ('G' :: '0' :: g :: 'X' :: (sx ++ 'Y' :: sy)) = some (some sx, some sy) := by
  unfold routeCaps
  rw [show ('G' :: '0' :: g :: 'X' :: (sx ++ 'Y' :: sy))
      = ['G', '0', g] ++ ('X' :: (sx ++ 'Y' :: sy)) from rfl]
  rw [litStr_refl]
  simp only [Option.bind_eq_bind, Option.some_bind]
  rw [optGroup_hit (goodTok_all hx) (by decide) (goodTok_ne hx)]
  dsimp only
  rw [optGroup_all (goodTok_all hy) (goodTok_ne hy)]
  rfl

/-- The inner KiCad XY regex captures both axes of a rendered hole line. -/
theorem xyCaps_XY {tx ty : List Char} (hx : goodTok tx = true) (hy : goodTok ty = true) :
    xyCaps ('X' :: (tx ++ 'Y' :: ty)) = some (tx, ty) := by
  unfold xyCaps
  rw [lit_self]
  simp only [Option.bind_eq_bind, Option.some_bind]
  rw [run1_exact (goodTok_all hx) (by decide) (goodTok_ne hx)]
  simp only [Option.some_bind]
  rw [lit_self]
  simp only [Option.some_bind]
  rw [run1_all (goodTok_all hy) (goodTok_ne hy)]
  rfl

/-- AD_TOOL_REGEX captures tool number and diameter of a rendered line. -/
theorem adToolCaps_line {n d : List Char} (hn : goodDigits n = true) (hd : goodDiam d = true) :
    adToolCaps (adToolLine (n, d)) = some (n, d) := by
  unfold adToolCaps adToolLine
  rw [lit_self]
  simp only [Option.bind_eq_bind, Option.some_bind]
  rw [run1_exact (goodDigits_all hn) (by decide) (goodDigits_ne hn)]
  simp only [Option.some_bind]
  rw [lit_self]
  simp only [Option.some_bind]
  rw [show run1 isDig ('0' :: '0' :: 'S' :: '0' :: '0' :: 'C' :: d)
      = some (['0', '0'], 'S' :: '0' :: '0' :: 'C' :: d) from rfl]
  simp only [Option.some_bind]
  rw [lit_self]
  simp only [Option.some_bind]
  rw [show run1 isDig ('0' :: '0' :: 'C' :: d) = some (['0', '0'], 'C' :: d) from rfl]
  simp only [Option.some_bind]
  rw [lit_self]
  simp only [Option.some_bind]
  rw [run1_all (goodDiam_all hd) (goodDiam_ne hd)]
  rfl

/-- KICAD_TOOL_REGEX captures tool number and diameter of a rendered line. -/
theorem kicadToolCaps_line {n d : List Char} (hn : goodDigits n = true) (hd : goodDiam d = true) :
    kicadToolCaps (kicadToolLine (n, d)) = some (n, d) := by
  unfold kicadToolCaps kicadToolLine
  rw [lit_self]
  simp only [Option.bind_eq_bind, Option.some_bind]
  rw [run1_exact (goodDigits_all hn) (by decide) (goodDigits_ne hn)]
  simp only [Option.some_bind]
  rw [lit_self]
  simp only [Option.some_bind]
  rw [run1_all (goodDiam_all hd) (goodDiam_ne hd)]
  rfl

/-! ### C5 character-set facts -/

theorem renderChar_of_coord {c : Char} (h : isCoordChar c = true) : renderChar c = true := by
  simp [renderChar, h]

theorem renderChar_of_dig {c : Char} (h : isDig c = true) : renderChar c = true := by
  have h2 : c.isDigit = true := h
  simp [renderChar, isCoordChar, h2]

theorem renderChar_of_diam {c : Char} (h : isDiamChar c = true) : renderChar c = true := by
  unfold isDiamChar at h
  rcases Bool.or_eq_true_iff.mp h with h1 | h1
  · exact renderChar_of_dig h1
  · simp [renderChar, isCoordChar, h1]

theorem renderChar_not_ws {c : Char} (h : renderChar c = true) : isWs c = false := by
  cases hw : isWs c with
  | false => rfl
  | true =>
    exfalso
    unfold isWs at hw
    rcases Bool.or_eq_true_iff.mp hw with h1 | h1
    · rcases Bool.or_eq_true_iff.mp h1 with h2 | h2
      · rcases Bool.or_eq_true_iff.mp h2 with h3 | h3
        · rw [decide_eq_true_eq] at h3; subst h3; exact absurd h (by decide)
        · rw [decide_eq_true_eq] at h3; subst h3; exact absurd h (by decide)
      · rw [decide_eq_true_eq] at h2; subst h2; exact absurd h (by decide)
    · rw [decide_eq_true_eq] at h1; subst h1; exact absurd h (by decide)

/-- Render-character lines trim to themselves. -/
theorem trimL_render {l : List Char} (h : ∀ c ∈ l, renderChar c = true) : trimL l = l :=
  trimL_id (fun c hc => renderChar_not_ws (h c hc))

theorem cons_ne_of_head {a b : Char} (h : ¬ a = b) {l1 l2 : List Char} :
    ¬ (a :: l1) = (b :: l2) := by
  intro he
  injection he with h1 _
  exact h h1

theorem adToolLine_chars {n d : List Char} (hn : goodDigits n = true) (hd : goodDiam d = true) :
    ∀ c ∈ adToolLine (n, d), renderChar c = true := by
  intro c hc
  unfold adToolLine at hc
  rcases List.mem_cons.mp hc with h1 | h1
  · subst h1; decide
  · rcases List.mem_append.mp h1 with h2 | h2
    · exact renderChar_of_dig (goodDigits_all hn c h2)
    · rcases List.mem_cons.mp h2 with h3 | h3
      · subst h3; decide
      · rcases List.mem_cons.mp h3 with h4 | h4
        · subst h4; decide
        · rcases List.mem_cons.mp h4 with h5 | h5
          · subst h5; decide
          · rcases List.mem_cons.mp h5 with h6 | h6
            · subst h6; decide
            · rcases List.mem_cons.mp h6 with h7 | h7
              · subst h7; decide
              · rcases List.mem_cons.mp h7 with h8 | h8
                · subst h8; decide
                · rcases List.mem_cons.mp h8 with h9 | h9
                  · subst h9; decide
                  · exact renderChar_of_diam (goodDiam_all hd c h9)

theorem kicadToolLine_chars {n d : List Char} (hn : goodDigits n = true) (hd : goodDiam d = true) :
    ∀ c ∈ kicadToolLine (n, d), renderChar c = true := by
  intro c hc
  unfold kicadToolLine at hc
  rcases List.mem_cons.mp hc with h1 | h1
  · subst h1; decide
  · rcases List.mem_append.mp h1 with h2 | h2
    · exact renderChar_of_dig (goodDigits_all hn c h2)
    · rcases List.mem_cons.mp h2 with h3 | h3
      · subst h3; decide
      · exact renderChar_of_diam (goodDiam_all hd c h3)

theorem goodTok_chars {t : List Char} (ht : goodTok t = true) :
    ∀ c ∈ t, renderChar c = true :=
  fun c hc => renderChar_of_coord (goodTok_all ht c hc)

theorem renderItem_chars {it : BodyItem} (hw : itemWf it = true) :
    ∀ l ∈ renderItem it, ∀ c ∈ l, renderChar c = true := by
  cases it with
  | toolSel n =>
    intro l hl c hc
    simp only [renderItem, List.mem_singleton] at hl
    subst hl
    rcases List.mem_cons.mp hc with h1 | h1
    · subst h1; decide
    · exact renderChar_of_dig (goodDigits_all hw c h1)
  | holeAt tx ty =>
    have hx := (Bool.and_eq_true_iff.mp hw).1
    have hy := (Bool.and_eq_true_iff.mp hw).2
    intro l hl c hc
    simp only [renderItem, List.mem_singleton] at hl
    subst hl
    rcases List.mem_cons.mp hc with h1 | h1
    · subst h1; decide
    · rcases List.mem_append.mp h1 with h2 | h2
      · exact goodTok_chars hx c h2
      · rcases List.mem_cons.mp h2 with h3 | h3
        · subst h3; decide
        · exact goodTok_chars hy c h3
  | slotBlock sx sy ex ey =>
    have h1 := Bool.and_eq_true_iff.mp hw
    have h2 := Bool.and_eq_true_iff.mp h1.1
    have h3 := Bool.and_eq_true_iff.mp h2.1
    have hsx := h3.1
    have hsy := h3.2
    have hex := h2.2
    have hey := h1.2
    intro l hl c hc
    simp only [renderItem] at hl
    rcases List.mem_cons.mp hl with g1 | g1
    · subst g1
      rcases List.mem_cons.mp hc with k1 | k1
      · subst k1; decide
      · rcases List.mem_cons.mp k1 with k2 | k2
        · subst k2; decide
        · rcases List.mem_cons.mp k2 with k3 | k3
          · subst k3; decide
          · rcases List.mem_cons.mp k3 with k4 | k4
            · subst k4; decide
            · rcases List.mem_append.mp k4 with k5 | k5
              · exact goodTok_chars hsx c k5
              · rcases List.mem_cons.mp k5 with k6 | k6
                · subst k6; decide
                · exact goodTok_chars hsy c k6
    · rcases List.mem_cons.mp g1 with g2 | g2
      · subst g2
        have hc2 : c ∈ ['M', '1', '5'] := hc
        simp only [List.mem_cons, List.not_mem_nil, or_false] at hc2
        rcases hc2 with k | k | k <;> (subst k; decide)
      · rcases List.mem_cons.mp g2 with g3 | g3
        · subst g3
          rcases List.mem_cons.mp hc with k1 | k1
          · subst k1; decide
          · rcases List.mem_cons.mp k1 with k2 | k2
            · subst k2; decide
            · rcases List.mem_cons.mp k2 with k3 | k3
              · subst k3; decide
              · rcases List.mem_cons.mp k3 with k4 | k4
                · subst k4; decide
                · rcases List.mem_append.mp k4 with k5 | k5
                  · exact goodTok_chars hex c k5
                  · rcases List.mem_cons.mp k5 with k6 | k6
                    · subst k6; decide
                    · exact goodTok_chars hey c k6
        · rcases List.mem_cons.mp g3 with g4 | g4
          · subst g4
            have hc2 : c ∈ ['M', '1', '6'] := hc
            simp only [List.mem_cons, List.not_mem_nil, or_false] at hc2
            rcases hc2 with k | k | k <;> (subst k; decide)
          · simp at g4

/-! ### C5 negative matcher facts on rendered lines -/

theorem ffAt_mem_I {l : List Char} {x : List Char × List Char} (h : ffAt l = some x) :
    'I' ∈ l := by
  unfold ffAt at h
  cases hls : litStr "FILE_FORMAT=".toList l with
  | none => rw [hls] at h; exact absurd h (by simp)
  | some r => exact litStr_mem hls 'I' (by decide)

theorem ffFind_mem_I {l : List Char} {x : List Char × List Char} (h : ffFind l = some x) :
    'I' ∈ l := by
  induction l with
  | nil => simp [ffFind] at h
  | cons c t ih =>
    unfold ffFind at h
    cases hat : ffAt (c :: t) with
    | some y =>
      exact ffAt_mem_I hat
    | none =>
      rw [hat] at h
      simp only [Option.none_orElse] at h
      exact List.mem_cons_of_mem c (ih h)

theorem ffFind_none {l : List Char} (h : ∀ c ∈ l, renderChar c = true) :
    ffFind l = none := by
  cases hf : ffFind l with
  | none => rfl
  | some x =>
    have := h 'I' (ffFind_mem_I hf)
    exact absurd this (by decide)

theorem chSub_false {c0 : Char} {pat l : List Char} (hc0 : c0 ∈ pat)
    (h : ∀ c ∈ l, renderChar c = true) (hr : renderChar c0 = false) :
    chSub pat l = false := by
  cases hs : chSub pat l with
  | false => rfl
  | true =>
    have := h c0 (chSub_mem hs c0 hc0)
    rw [this] at hr
    exact absurd hr (by simp)

theorem chSub_false2 {c0 : Char} {pat l : List Char} (hc0 : c0 ∈ pat)
    (h : ∀ c ∈ l, ¬ c = c0) : chSub pat l = false := by
  cases hs : chSub pat l with
  | false => rfl
  | true => exact absurd rfl (h c0 (chSub_mem hs c0 hc0))

/-- Characters of a rendered KiCad content: render characters or newlines. -/
theorem renderKicad_chars {tools : List (List Char × List Char)} {items : List BodyItem}
    (htools : ∀ p ∈ tools, goodDigits p.1 = true ∧ goodDiam p.2 = true)
    (hitems : ∀ it ∈ items, itemWf it = true) :
    ∀ c ∈ (renderKicadContent tools items).toList, renderChar c = true ∨ c = '\n' := by
  intro c hc
  have hc2 : c ∈ unlinesL (tools.map kicadToolLine ++ [['%']] ++ renderBody items) := hc
  unfold unlinesL at hc2
  obtain ⟨seg, hseg, hcseg⟩ := List.mem_flatten.mp hc2
  obtain ⟨line, hline, hlineseg⟩ := List.mem_map.mp hseg
  rw [← hlineseg] at hcseg
  rcases List.mem_append.mp hcseg with hcl | hcl
  · left
    rcases List.mem_append.mp hline with hml | hml
    · rcases List.mem_append.mp hml with hm2 | hm2
      · obtain ⟨p, hp, hpl⟩ := List.mem_map.mp hm2
        rw [← hpl] at hcl
        exact kicadToolLine_chars (htools p hp).1 (htools p hp).2 c hcl
      · have h3 : line = ['%'] := by simpa using hm2
        rw [h3] at hcl
        have h4 : c = '%' := by simpa using hcl
        rw [h4]; decide
    · unfold renderBody at hml
      obtain ⟨seg2, hseg2, hlseg2⟩ := List.mem_flatten.mp hml
      obtain ⟨it, hit, hitseg⟩ := List.mem_map.mp hseg2
      rw [← hitseg] at hlseg2
      exact renderItem_chars (hitems it hit) line hlseg2 c hcl
  · right
    simpa using hcl

/-- The rendered KiCad content contains no letter N, so the whole-file hole
type is Plated. -/
theorem kicadHoleType_render {tools : List (List Char × List Char)} {items : List BodyItem}
    (htools : ∀ p ∈ tools, goodDigits p.1 = true ∧ goodDiam p.2 = true)
    (hitems : ∀ it ∈ items, itemWf it = true) :
    kicadHoleType (renderKicadContent tools items) = HoleType.Plated := by
  have hN : ∀ c ∈ (renderKicadContent tools items).toList, ¬ c = 'N' := by
    intro c hc he
    rcases renderKicad_chars htools hitems c hc with h1 | h1
    · rw [he] at h1; exact absurd h1 (by decide)
    · rw [he] at h1; exact absurd h1 (by decide)
  unfold kicadHoleType
  have h1 : strContains (renderKicadContent tools items) "NonPlated" = false := by
    unfold strContains
    exact @chSub_false2 'N' _ _ (by decide) hN
  have h2 : strContains (renderKicadContent tools items) "NPTH" = false := by
    unfold strContains
    exact @chSub_false2 'N' _ _ (by decide) hN
  rw [h1, h2]
  rfl

/-! ### C5 header-pass evaluation -/

theorem adHeaderLine_pct (st : AdHeader) :
    adHeaderLine st ['%'] = { st with in_header := false } := by
  unfold adHeaderLine
  rw [show trimL ['%'] = ['%'] from rfl]
  rw [if_pos rfl]

theorem adHeaderLine_skip {st : AdHeader} {raw : List Char}
    (hin : st.in_header = false) (hne : ¬ trimL raw = ['%']) :
    adHeaderLine st raw = st := by
  unfold adHeaderLine
  rw [if_neg hne, hin]
  simp

theorem kicadHeaderLine_pct (st : KHeader) :
    kicadHeaderLine st ['%'] = { st with in_header := false } := by
  unfold kicadHeaderLine
  rw [show trimL ['%'] = ['%'] from rfl]
  rw [if_pos rfl]

theorem kicadHeaderLine_skip {st : KHeader} {raw : List Char}
    (hin : st.in_header = false) (hne : ¬ trimL raw = ['%']) :
    kicadHeaderLine st raw = st := by
  unfold kicadHeaderLine
  rw [if_neg hne, hin]
  simp

theorem kicadHeaderLine_tool {tm : List (Nat × Dec)} {n d : List Char}
    (hn : goodDigits n = true) (hd : goodDiam d = true) :
    kicadHeaderLine ⟨true, tm⟩ (kicadToolLine (n, d)) =
      ⟨true, alInsert (parseU32 n 0) (parseF64D d) tm⟩ := by
  unfold kicadHeaderLine
  rw [trimL_render (kicadToolLine_chars hn hd)]
  rw [if_neg (by unfold kicadToolLine; exact cons_ne_of_head (by decide))]
  rw [show (⟨true, tm⟩ : KHeader).in_header = true from rfl]
  simp only [if_true]
  rw [kicadToolCaps_line hn hd]

theorem adHeaderLine_tool {tm : List (Nat × (Dec × HoleType))} {n d : List Char}
    (hn : goodDigits n = true) (hd : goodDiam d = true) :
    adHeaderLine ⟨DrillUnit.Metric, 2, 4, true, HoleType.Plated, true, tm⟩ (adToolLine (n, d)) =
      ⟨DrillUnit.Metric, 2, 4, true, HoleType.Plated, true,
        alInsert (parseU32 n 0) (parseF64D d, HoleType.Plated) tm⟩ := by
  unfold adHeaderLine
  rw [trimL_render (adToolLine_chars hn hd)]
  rw [if_neg (by unfold adToolLine; exact cons_ne_of_head (by decide))]
  rw [show (⟨DrillUnit.Metric, 2, 4, true, HoleType.Plated, true, tm⟩ : AdHeader).in_header
      = true from rfl]
  simp only [if_true]
  rw [show chPre "INCH".toList (upperL (adToolLine (n, d))) = false from rfl]
  rw [show chPre "METRIC".toList (upperL (adToolLine (n, d))) = false from rfl]
  rw [ffFind_none (adToolLine_chars hn hd)]
  rw [@chSub_false '=' _ _ (by decide) (adToolLine_chars hn hd) (by decide)]
  rw [@chSub_false '=' ("TYPE=NON_PLATED".toList) _ (by decide)
    (adToolLine_chars hn hd) (by decide)]
  rw [adToolCaps_line hn hd]
  simp

/-! ### C5 body-pass evaluation: decoding -/

/-- A token with a decimal point decodes identically in both dialects under
Metric: the LZ/TZ machinery is bypassed. -/
theorem parse_ad_dot {t : List Char} (hdot : t.any (fun c => c = '.') = true)
    (ip dp : Nat) (lz : Bool) :
    parse_ad_coordinate t ip dp lz DrillUnit.Metric = parseF64D t := by
  unfold parse_ad_coordinate
  rw [hdot]
  simp only [if_true]
  rw [if_neg (by decide : ¬ (DrillUnit.Metric = DrillUnit.Inch))]

theorem getD_of_isSome {o : Option Dec} (h : o.isSome = true) (a b : Dec) :
    o.getD a = o.getD b := by
  cases o with
  | none => simp at h
  | some v => rfl

theorem toolSelLine_chars {n : List Char} (hn : goodDigits n = true) :
    ∀ c ∈ ('T' :: n), renderChar c = true := by
  intro c hc
  rcases List.mem_cons.mp hc with h1 | h1
  · subst h1; decide
  · exact renderChar_of_dig (goodDigits_all hn c h1)

theorem holeLine_chars {tx ty : List Char} (hx : goodTok tx = true) (hy : goodTok ty = true) :
    ∀ c ∈ ('X' :: (tx ++ 'Y' :: ty)), renderChar c = true := by
  intro c hc
  rcases List.mem_cons.mp hc with h1 | h1
  · subst h1; decide
  · rcases List.mem_append.mp h1 with h2 | h2
    · exact goodTok_chars hx c h2
    · rcases List.mem_cons.mp h2 with h3 | h3
      · subst h3; decide
      · exact goodTok_chars hy c h3

theorem gLine_chars {g : Char} (hg : renderChar g = true) {sx sy : List Char}
    (hx : goodTok sx = true) (hy : goodTok sy = true) :
    ∀ c ∈ ('G' :: '0' :: g :: 'X' :: (sx ++ 'Y' :: sy)), renderChar c = true := by
  intro c hc
  rcases List.mem_cons.mp hc with h1 | h1
  · subst h1; decide
  · rcases List.mem_cons.mp h1 with h2 | h2
    · subst h2; decide
    · rcases List.mem_cons.mp h2 with h3 | h3
      · subst h3; exact hg
      · rcases List.mem_cons.mp h3 with h4 | h4
        · subst h4; decide
        · rcases List.mem_append.mp h4 with h5 | h5
          · exact goodTok_chars hx c h5
          · rcases List.mem_cons.mp h5 with h6 | h6
            · subst h6; decide
            · exact goodTok_chars hy c h6

/-! ### C5 body-pass evaluation: the Altium machine -/

theorem adBody_toolSel {tmA : List (Nat × (Dec × HoleType))} {ct : Option Nat}
    {lx ly : Dec} {ops : List (Nat × DrillOperation)} {n : List Char}
    (hn : goodDigits n = true) :
    adBodyLine 2 4 true DrillUnit.Metric tmA ⟨ct, false, lx, ly, false, ops⟩ ('T' :: n) =
      (if (alLookup (parseU32 n 0) tmA).isSome then
        (⟨some (parseU32 n 0), false, lx, ly, false, ops⟩ : AdBody)
      else ⟨ct, false, lx, ly, false, ops⟩) := by
  unfold adBodyLine
  rw [trimL_render (toolSelLine_chars hn)]
  rw [if_neg (cons_ne_of_head (by decide))]
  rw [show ((⟨ct, false, lx, ly, false, ops⟩ : AdBody).in_header
      || ('T' :: n).isEmpty || chPre [';'] ('T' :: n)) = false from rfl]
  simp only [Bool.false_eq_true, if_false]
  rw [toolSelectCaps_T hn]

theorem adBody_hole {tmA : List (Nat × (Dec × HoleType))} {ct : Option Nat}
    {lx ly : Dec} {ops : List (Nat × DrillOperation)} {tx ty : List Char}
    (hx : goodTok tx = true) (hy : goodTok ty = true) :
    adBodyLine 2 4 true DrillUnit.Metric tmA ⟨ct, false, lx, ly, false, ops⟩
        ('X' :: (tx ++ 'Y' :: ty)) =
      (match ct with
       | none => (⟨ct, false, lx, ly, false, ops⟩ : AdBody)
       | some tool =>
         if (alLookup tool ops).isSome then
           ⟨ct, false, parseF64D tx, parseF64D ty, false,
            alModify tool (fun op =>
              { op with commands :=
                  op.commands ++ [DrillCommand.Hole (parseF64D tx) (parseF64D ty)] }) ops⟩
         else ⟨ct, false, lx, ly, false, ops⟩) := by
  unfold adBodyLine
  rw [trimL_render (holeLine_chars hx hy)]
  rw [if_neg (cons_ne_of_head (by decide))]
  rw [show ((⟨ct, false, lx, ly, false, ops⟩ : AdBody).in_header
      || ('X' :: (tx ++ 'Y' :: ty)).isEmpty || chPre [';'] ('X' :: (tx ++ 'Y' :: ty)))
      = false from rfl]
  simp only [Bool.false_eq_true, if_false]
  rw [show toolSelectCaps ('X' :: (tx ++ 'Y' :: ty)) = none from rfl]
  rw [show routeCaps '0' ('X' :: (tx ++ 'Y' :: ty)) = none from rfl]
  simp only [show ("M15".toList : List Char) = ['M', '1', '5'] from rfl,
    show ("M16".toList : List Char) = ['M', '1', '6'] from rfl]
  rw [if_neg (cons_ne_of_head (by decide) :
    ¬ ('X' :: (tx ++ 'Y' :: ty)) = ['M', '1', '5'])]
  rw [if_neg (cons_ne_of_head (by decide) :
    ¬ ('X' :: (tx ++ 'Y' :: ty)) = ['M', '1', '6'])]
  rw [coordCaps_XY hx hy]
  dsimp only
  simp only [show (decide ((some tx : Option (List Char)) = none)) = false from by simp,
    show (decide ((some ty : Option (List Char)) = none)) = false from by simp,
    Bool.false_and, Bool.false_eq_true, if_false]
  cases ct with
  | none => rfl
  | some tool =>
    dsimp only
    split
    · rw [parse_ad_dot (goodTok_dot hx), parse_ad_dot (goodTok_dot hy)]
    · rfl

theorem adBody_g00 {tmA : List (Nat × (Dec × HoleType))} {ct : Option Nat} {ir : Bool}
    {lx ly : Dec} {ops : List (Nat × DrillOperation)} {sx sy : List Char}
    (hx : goodTok sx = true) (hy : goodTok sy = true) :
    adBodyLine 2 4 true DrillUnit.Metric tmA ⟨ct, ir, lx, ly, false, ops⟩
        ('G' :: '0' :: '0' :: 'X' :: (sx ++ 'Y' :: sy)) =
      ⟨ct, ir, parseF64D sx, parseF64D sy, false, ops⟩ := by
  unfold adBodyLine
  rw [trimL_render (gLine_chars (by decide) hx hy)]
  rw [if_neg (cons_ne_of_head (by decide))]
  rw [show ((⟨ct, ir, lx, ly, false, ops⟩ : AdBody).in_header
      || ('G' :: '0' :: '0' :: 'X' :: (sx ++ 'Y' :: sy)).isEmpty
      || chPre [';'] ('G' :: '0' :: '0' :: 'X' :: (sx ++ 'Y' :: sy))) = false from rfl]
  simp only [Bool.false_eq_true, if_false]
  rw [show toolSelectCaps ('G' :: '0' :: '0' :: 'X' :: (sx ++ 'Y' :: sy)) = none from rfl]
  rw [routeCaps_G hx hy]
  dsimp only
  rw [parse_ad_dot (goodTok_dot hx), parse_ad_dot (goodTok_dot hy)]

theorem adBody_m15 {tmA : List (Nat × (Dec × HoleType))} {ct : Option Nat} {ir : Bool}
    {lx ly : Dec} {ops : List (Nat × DrillOperation)} :
    adBodyLine 2 4 true DrillUnit.Metric tmA ⟨ct, ir, lx, ly, false, ops⟩ "M15".toList =
      ⟨ct, true, lx, ly, false, ops⟩ := rfl

theorem adBody_m16 {tmA : List (Nat × (Dec × HoleType))} {ct : Option Nat} {ir : Bool}
    {lx ly : Dec} {ops : List (Nat × DrillOperation)} :
    adBodyLine 2 4 true DrillUnit.Metric tmA ⟨ct, ir, lx, ly, false, ops⟩ "M16".toList =
      ⟨ct, false, lx, ly, false, ops⟩ := by
  cases ir <;> rfl

theorem adBody_g01 {tmA : List (Nat × (Dec × HoleType))} {ct : Option Nat}
    {lx ly : Dec} {ops : List (Nat × DrillOperation)} {ex ey : List Char}
    (hx : goodTok ex = true) (hy : goodTok ey = true) :
    adBodyLine 2 4 true DrillUnit.Metric tmA ⟨ct, true, lx, ly, false, ops⟩
        ('G' :: '0' :: '1' :: 'X' :: (ex ++ 'Y' :: ey)) =
      (match ct with
       | none => (⟨ct, true, parseF64D ex, parseF64D ey, false, ops⟩ : AdBody)
       | some tool =>
         ⟨ct, true, parseF64D ex, parseF64D ey, false,
          alModify tool (fun op =>
            { op with commands :=
                op.commands ++ [DrillCommand.Slot lx ly (parseF64D ex) (parseF64D ey)] }) ops⟩) := by
  unfold adBodyLine
  rw [trimL_render (gLine_chars (by decide) hx hy)]
  rw [if_neg (cons_ne_of_head (by decide))]
  rw [show ((⟨ct, true, lx, ly, false, ops⟩ : AdBody).in_header
      || ('G' :: '0' :: '1' :: 'X' :: (ex ++ 'Y' :: ey)).isEmpty
      || chPre [';'] ('G' :: '0' :: '1' :: 'X' :: (ex ++ 'Y' :: ey))) = false from rfl]
  simp only [Bool.false_eq_true, if_false]
  rw [show toolSelectCaps ('G' :: '0' :: '1' :: 'X' :: (ex ++ 'Y' :: ey)) = none from rfl]
  rw [show routeCaps '0' ('G' :: '0' :: '1' :: 'X' :: (ex ++ 'Y' :: ey)) = none from rfl]
  dsimp only
  simp only [show ("M15".toList : List Char) = ['M', '1', '5'] from rfl]
  rw [if_neg (cons_ne_of_head (by decide) :
    ¬ ('G' :: '0' :: '1' :: 'X' :: (ex ++ 'Y' :: ey)) = ['M', '1', '5'])]
  simp only [if_true]
  rw [routeCaps_G hx hy]
  dsimp only
  cases ct with
  | none =>
    dsimp only
    rw [parse_ad_dot (goodTok_dot hx), parse_ad_dot (goodTok_dot hy)]
  | some tool =>
    dsimp only
    rw [parse_ad_dot (goodTok_dot hx), parse_ad_dot (goodTok_dot hy)]

/-! ### C5 body-pass evaluation: the KiCad machine -/

theorem kicadBody_toolSel {tmK : List (Nat × Dec)} {ct : Option Nat}
    {rs : Option (Dec × Dec)} {ly : Dec} {ops : List (Nat × DrillOperation)} {n : List Char}
    (hn : goodDigits n = true) :
    kicadBodyLine tmK ⟨ct, false, rs, ly, false, ops⟩ ('T' :: n) =
      some (if (alLookup (parseU32 n 0) tmK).isSome then
        (⟨some (parseU32 n 0), false, rs, ly, false, ops⟩ : KBody)
      else ⟨ct, false, rs, ly, false, ops⟩) := by
  unfold kicadBodyLine
  rw [trimL_render (toolSelLine_chars hn)]
  rw [if_neg (cons_ne_of_head (by decide))]
  rw [show ((⟨ct, false, rs, ly, false, ops⟩ : KBody).in_header
      || ('T' :: n).isEmpty || chPre [';'] ('T' :: n)) = false from rfl]
  simp only [Bool.false_eq_true, if_false]
  rw [toolSelectCaps_T hn]

theorem kicadBody_hole {tmK : List (Nat × Dec)} {ct : Option Nat}
    {rs : Option (Dec × Dec)} {ly : Dec} {ops : List (Nat × DrillOperation)} {tx ty : List Char}
    (hx : goodTok tx = true) (hy : goodTok ty = true) :
    kicadBodyLine tmK ⟨ct, false, rs, ly, false, ops⟩ ('X' :: (tx ++ 'Y' :: ty)) =
      some (match ct with
       | none => (⟨ct, false, rs, ly, false, ops⟩ : KBody)
       | some tool =>
         ⟨ct, false, rs, ly, false,
          alModify tool (fun op =>
            { op with commands :=
                op.commands ++ [DrillCommand.Hole (parseF64D tx) (parseF64D ty)] }) ops⟩) := by
  unfold kicadBodyLine
  rw [trimL_render (holeLine_chars hx hy)]
  rw [if_neg (cons_ne_of_head (by decide))]
  rw [show ((⟨ct, false, rs, ly, false, ops⟩ : KBody).in_header
      || ('X' :: (tx ++ 'Y' :: ty)).isEmpty || chPre [';'] ('X' :: (tx ++ 'Y' :: ty)))
      = false from rfl]
  simp only [Bool.false_eq_true, if_false]
  rw [show toolSelectCaps ('X' :: (tx ++ 'Y' :: ty)) = none from rfl]
  rw [show routeCaps '0' ('X' :: (tx ++ 'Y' :: ty)) = none from rfl]
  simp only [show ("M15".toList : List Char) = ['M', '1', '5'] from rfl,
    show ("M16".toList : List Char) = ['M', '1', '6'] from rfl]
  rw [if_neg (cons_ne_of_head (by decide) :
    ¬ ('X' :: (tx ++ 'Y' :: ty)) = ['M', '1', '5'])]
  rw [if_neg (cons_ne_of_head (by decide) :
    ¬ ('X' :: (tx ++ 'Y' :: ty)) = ['M', '1', '6'])]
  have hany : (('X' :: (tx ++ 'Y' :: ty)).any (fun c => c = 'Y')) = true := by
    simp
  have hcond : (chPre ['X'] ('X' :: (tx ++ 'Y' :: ty))
      && ('X' :: (tx ++ 'Y' :: ty)).any (fun c => c = 'Y')) = true := by
    rw [show chPre ['X'] ('X' :: (tx ++ 'Y' :: ty)) = true from rfl, hany]
    rfl
  rw [if_pos hcond]
  rw [xyCaps_XY hx hy]
  cases ct with
  | none => rfl
  | some tool => rfl

theorem kicadBody_g00 {tmK : List (Nat × Dec)} {ct : Option Nat} {ir : Bool}
    {rs : Option (Dec × Dec)} {ly : Dec} {ops : List (Nat × DrillOperation)} {sx sy : List Char}
    (hx : goodTok sx = true) (hy : goodTok sy = true) :
    kicadBodyLine tmK ⟨ct, ir, rs, ly, false, ops⟩
        ('G' :: '0' :: '0' :: 'X' :: (sx ++ 'Y' :: sy)) =
      some ⟨ct, ir, some (parseF64D sx, parseF64D sy), parseF64D sy, false, ops⟩ := by
  unfold kicadBodyLine
  rw [trimL_render (gLine_chars (by decide) hx hy)]
  rw [if_neg (cons_ne_of_head (by decide))]
  rw [show ((⟨ct, ir, rs, ly, false, ops⟩ : KBody).in_header
      || ('G' :: '0' :: '0' :: 'X' :: (sx ++ 'Y' :: sy)).isEmpty
      || chPre [';'] ('G' :: '0' :: '0' :: 'X' :: (sx ++ 'Y' :: sy))) = false from rfl]
  simp only [Bool.false_eq_true, if_false]
  rw [show toolSelectCaps ('G' :: '0' :: '0' :: 'X' :: (sx ++ 'Y' :: sy)) = none from rfl]
  rw [routeCaps_G hx hy]

theorem kicadBody_m15 {tmK : List (Nat × Dec)} {ct : Option Nat} {ir : Bool}
    {rs : Option (Dec × Dec)} {ly : Dec} {ops : List (Nat × DrillOperation)} :
    kicadBodyLine tmK ⟨ct, ir, rs, ly, false, ops⟩ "M15".toList =
      some ⟨ct, true, rs, ly, false, ops⟩ := rfl

theorem kicadBody_m16 {tmK : List (Nat × Dec)} {ct : Option Nat} {ir : Bool}
    {rs : Option (Dec × Dec)} {ly : Dec} {ops : List (Nat × DrillOperation)} :
    kicadBodyLine tmK ⟨ct, ir, rs, ly, false, ops⟩ "M16".toList =
      some ⟨ct, false, none, ly, false, ops⟩ := by
  cases ir <;> rfl

theorem kicadBody_g01 {tmK : List (Nat × Dec)} {ct : Option Nat} {a b : Dec}
    {ly : Dec} {ops : List (Nat × DrillOperation)} {ex ey : List Char}
    (hx : goodTok ex = true) (hy : goodTok ey = true) :
    kicadBodyLine tmK ⟨ct, true, some (a, b), ly, false, ops⟩
        ('G' :: '0' :: '1' :: 'X' :: (ex ++ 'Y' :: ey)) =
      some (match ct with
       | none => (⟨ct, true, some (a, b), parseF64D ey, false, ops⟩ : KBody)
       | some tool =>
         ⟨ct, true, some (a, b), parseF64D ey, false,
          alModify tool (fun op =>
            { op with commands :=
                op.commands ++ [DrillCommand.Slot a b (parseF64D ex) (parseF64D ey)] }) ops⟩) := by
  unfold kicadBodyLine
  rw [trimL_render (gLine_chars (by decide) hx hy)]
  rw [if_neg (cons_ne_of_head (by decide))]
  rw [show ((⟨ct, true, some (a, b), ly, false, ops⟩ : KBody).in_header
      || ('G' :: '0' :: '1' :: 'X' :: (ex ++ 'Y' :: ey)).isEmpty
      || chPre [';'] ('G' :: '0' :: '1' :: 'X' :: (ex ++ 'Y' :: ey))) = false from rfl]
  simp only [Bool.false_eq_true, if_false]
  rw [show toolSelectCaps ('G' :: '0' :: '1' :: 'X' :: (ex ++ 'Y' :: ey)) = none from rfl]
  rw [show routeCaps '0' ('G' :: '0' :: '1' :: 'X' :: (ex ++ 'Y' :: ey)) = none from rfl]
  dsimp only
  simp only [show ("M15".toList : List Char) = ['M', '1', '5'] from rfl]
  rw [if_neg (cons_ne_of_head (by decide) :
    ¬ ('G' :: '0' :: '1' :: 'X' :: (ex ++ 'Y' :: ey)) = ['M', '1', '5'])]
  simp only [if_true]
  rw [routeCaps_G hx hy]
  dsimp only
  rw [getD_of_isSome (goodTok_parse hy) _ dZero]
  cases ct with
  | none => rfl
  | some tool => rfl

/-! ### C5 tool-map correspondence -/

/-- Lift a KiCad tool map to the Altium shape with the Plated context. -/
def liftTm (tm : List (Nat × Dec)) : List (Nat × (Dec × HoleType)) :=
  tm.map (fun p => (p.1, (p.2, HoleType.Plated)))

theorem alLookup_lift (k : Nat) : ∀ (tm : List (Nat × Dec)),
    alLookup k (liftTm tm) = (alLookup k tm).map (fun d => (d, HoleType.Plated)) := by
  intro tm
  induction tm with
  | nil => rfl
  | cons p t ih =>
    show alLookup k ((p.1, (p.2, HoleType.Plated)) :: liftTm t) = _
    unfold alLookup
    by_cases hk : k = p.1
    · rw [if_pos hk, if_pos hk]
      rfl
    · rw [if_neg hk, if_neg hk]
      exact ih

theorem liftTm_alInsert (k : Nat) (v : Dec) : ∀ (tm : List (Nat × Dec)),
    liftTm (alInsert k v tm) = alInsert k (v, HoleType.Plated) (liftTm tm) := by
  intro tm
  induction tm with
  | nil => rfl
  | cons p t ih =>
    show liftTm (alInsert k v (p :: t)) = _
    unfold alInsert
    by_cases h1 : k < p.1
    · rw [if_pos h1]
      show _ = if k < p.1 then _ else _
      rw [if_pos h1]
      rfl
    · rw [if_neg h1]
      by_cases h2 : k = p.1
      · rw [if_pos h2]
        show _ = if k < p.1 then _ else if k = p.1 then _ else _
        rw [if_neg h1, if_pos h2]
        rfl
      · rw [if_neg h2]
        show (p.1, (p.2, HoleType.Plated)) :: liftTm (alInsert k v t)
            = if k < p.1 then _ else if k = p.1 then _ else _
        rw [if_neg h1, if_neg h2, ih]
        rfl

theorem alLookup_alModify {β : Type} (k t : Nat) (f : β → β) : ∀ (l : List (Nat × β)),
    (alLookup k (alModify t f l)).isSome = (alLookup k l).isSome := by
  intro l
  induction l with
  | nil => rfl
  | cons p r ih =>
    obtain ⟨k1, v1⟩ := p
    unfold alModify
    by_cases h1 : t = k1
    · rw [if_pos h1]
      unfold alLookup
      by_cases h2 : k = k1
      · rw [if_pos h2, if_pos h2]
        rfl
      · rw [if_neg h2, if_neg h2]
    · rw [if_neg h1]
      unfold alLookup
      by_cases h2 : k = k1
      · rw [if_pos h2, if_pos h2]
      · rw [if_neg h2, if_neg h2]
        exact ih

theorem alLookup_opsInit (k : Nat) (ht : HoleType) : ∀ (tm : List (Nat × Dec)),
    (alLookup k (tm.map (fun p => (p.1, DrillOperation.mk p.2 ht [])))).isSome
      = (alLookup k tm).isSome := by
  intro tm
  induction tm with
  | nil => rfl
  | cons p t ih =>
    show (alLookup k ((p.1, DrillOperation.mk p.2 ht []) :: _)).isSome = _
    unfold alLookup
    by_cases hk : k = p.1
    · rw [if_pos hk, if_pos hk]
      rfl
    · rw [if_neg hk, if_neg hk]
      exact ih

theorem liftTm_opsInit : ∀ (tm : List (Nat × Dec)),
    (liftTm tm).map (fun p => (p.1, DrillOperation.mk p.2.1 p.2.2 []))
      = tm.map (fun p => (p.1, DrillOperation.mk p.2 HoleType.Plated [])) := by
  intro tm
  induction tm with
  | nil => rfl
  | cons p t ih =>
    show (p.1, DrillOperation.mk p.2 HoleType.Plated []) :: _ = _
    rw [List.map_cons]
    exact congrArg _ ih

/-! ### C5 line shape facts -/

theorem renderBody_chars {items : List BodyItem} (hitems : ∀ it ∈ items, itemWf it = true) :
    ∀ l ∈ renderBody items, ∀ c ∈ l, renderChar c = true := by
  intro l hl
  unfold renderBody at hl
  obtain ⟨seg, hseg, hlseg⟩ := List.mem_flatten.mp hl
  obtain ⟨it, hit, hitseg⟩ := List.mem_map.mp hseg
  rw [← hitseg] at hlseg
  exact renderItem_chars (hitems it hit) l hlseg

theorem renderBody_no_pct {items : List BodyItem} (hitems : ∀ it ∈ items, itemWf it = true) :
    ∀ l ∈ renderBody items, ¬ trimL l = ['%'] := by
  intro l hl
  have hch : ∀ c ∈ l, renderChar c = true := renderBody_chars hitems l hl
  rw [trimL_render hch]
  unfold renderBody at hl
  obtain ⟨seg, hseg, hlseg⟩ := List.mem_flatten.mp hl
  obtain ⟨it, hit, hitseg⟩ := List.mem_map.mp hseg
  rw [← hitseg] at hlseg
  cases it with
  | toolSel n =>
    rw [List.mem_singleton.mp hlseg]
    exact cons_ne_of_head (by decide)
  | holeAt tx ty =>
    rw [List.mem_singleton.mp hlseg]
    exact cons_ne_of_head (by decide)
  | slotBlock sx sy ex ey =>
    rcases List.mem_cons.mp hlseg with h1 | h1
    · rw [h1]; exact cons_ne_of_head (by decide)
    rcases List.mem_cons.mp h1 with h2 | h2
    · rw [h2]; decide
    rcases List.mem_cons.mp h2 with h3 | h3
    · rw [h3]; exact cons_ne_of_head (by decide)
    rcases List.mem_cons.mp h3 with h4 | h4
    · rw [h4]; decide
    · exact absurd h4 (List.not_mem_nil l)

theorem adToolLines_no_pct {tools : List (List Char × List Char)}
    (htools : ∀ p ∈ tools, goodDigits p.1 = true ∧ goodDiam p.2 = true) :
    ∀ l ∈ tools.map adToolLine, ¬ trimL l = ['%'] := by
  intro l hl
  obtain ⟨p, hp, hpl⟩ := List.mem_map.mp hl
  rw [← hpl, trimL_render (adToolLine_chars (htools p hp).1 (htools p hp).2)]
  unfold adToolLine
  exact cons_ne_of_head (by decide)

theorem kicadToolLines_no_pct {tools : List (List Char × List Char)}
    (htools : ∀ p ∈ tools, goodDigits p.1 = true ∧ goodDiam p.2 = true) :
    ∀ l ∈ tools.map kicadToolLine, ¬ trimL l = ['%'] := by
  intro l hl
  obtain ⟨p, hp, hpl⟩ := List.mem_map.mp hl
  rw [← hpl, trimL_render (kicadToolLine_chars (htools p hp).1 (htools p hp).2)]
  unfold kicadToolLine
  exact cons_ne_of_head (by decide)

theorem adLines_chars {tools : List (List Char × List Char)} {items : List BodyItem}
    (htools : ∀ p ∈ tools, goodDigits p.1 = true ∧ goodDiam p.2 = true)
    (hitems : ∀ it ∈ items, itemWf it = true) :
    ∀ l ∈ (tools.map adToolLine ++ [['%']] ++ renderBody items),
      ∀ c ∈ l, renderChar c = true := by
  intro l hl
  rcases List.mem_append.mp hl with h1 | h1
  · rcases List.mem_append.mp h1 with h2 | h2
    · obtain ⟨p, hp, hpl⟩ := List.mem_map.mp h2
      rw [← hpl]
      exact adToolLine_chars (htools p hp).1 (htools p hp).2
    · rw [List.mem_singleton.mp h2]
      intro c hc
      rw [List.mem_singleton.mp hc]
      decide
  · exact renderBody_chars hitems l h1

theorem kicadLines_chars {tools : List (List Char × List Char)} {items : List BodyItem}
    (htools : ∀ p ∈ tools, goodDigits p.1 = true ∧ goodDiam p.2 = true)
    (hitems : ∀ it ∈ items, itemWf it = true) :
    ∀ l ∈ (tools.map kicadToolLine ++ [['%']] ++ renderBody items),
      ∀ c ∈ l, renderChar c = true := by
  intro l hl
  rcases List.mem_append.mp hl with h1 | h1
  · rcases List.mem_append.mp h1 with h2 | h2
    · obtain ⟨p, hp, hpl⟩ := List.mem_map.mp h2
      rw [← hpl]
      exact kicadToolLine_chars (htools p hp).1 (htools p hp).2
    · rw [List.mem_singleton.mp h2]
      intro c hc
      rw [List.mem_singleton.mp hc]
      decide
  · exact renderBody_chars hitems l h1

/-! ### C5 header-pass folds -/

theorem adHeader_fold_tools : ∀ (tools : List (List Char × List Char))
    (tm : List (Nat × (Dec × HoleType))),
    (∀ p ∈ tools, goodDigits p.1 = true ∧ goodDiam p.2 = true) →
    (tools.map adToolLine).foldl adHeaderLine
        ⟨DrillUnit.Metric, 2, 4, true, HoleType.Plated, true, tm⟩
      = ⟨DrillUnit.Metric, 2, 4, true, HoleType.Plated, true,
         tools.foldl (fun acc p =>
           alInsert (parseU32 p.1 0) (parseF64D p.2, HoleType.Plated) acc) tm⟩ := by
  intro tools
  induction tools with
  | nil => intro tm _; rfl
  | cons p t ih =>
    intro tm htools
    obtain ⟨n, d⟩ := p
    rw [List.map_cons, List.foldl_cons, List.foldl_cons]
    rw [adHeaderLine_tool (htools (n, d) (by simp)).1 (htools (n, d) (by simp)).2]
    exact ih _ (fun q hq => htools q (by simp [hq]))

theorem kicadHeader_fold_tools : ∀ (tools : List (List Char × List Char))
    (tm : List (Nat × Dec)),
    (∀ p ∈ tools, goodDigits p.1 = true ∧ goodDiam p.2 = true) →
    (tools.map kicadToolLine).foldl kicadHeaderLine ⟨true, tm⟩
      = ⟨true, tools.foldl (fun acc p =>
          alInsert (parseU32 p.1 0) (parseF64D p.2) acc) tm⟩ := by
  intro tools
  induction tools with
  | nil => intro tm _; rfl
  | cons p t ih =>
    intro tm htools
    obtain ⟨n, d⟩ := p
    rw [List.map_cons, List.foldl_cons, List.foldl_cons]
    rw [kicadHeaderLine_tool (htools (n, d) (by simp)).1 (htools (n, d) (by simp)).2]
    exact ih _ (fun q hq => htools q (by simp [hq]))

theorem liftTm_fold : ∀ (tools : List (List Char × List Char)) (tm : List (Nat × Dec)),
    tools.foldl (fun acc p =>
        alInsert (parseU32 p.1 0) (parseF64D p.2, HoleType.Plated) acc) (liftTm tm)
      = liftTm (tools.foldl (fun acc p =>
          alInsert (parseU32 p.1 0) (parseF64D p.2) acc) tm) := by
  intro tools
  induction tools with
  | nil => intro tm; rfl
  | cons p t ih =>
    intro tm
    rw [List.foldl_cons, List.foldl_cons]
    rw [← liftTm_alInsert]
    exact ih _

theorem adHeader_fold_skip : ∀ (lines : List (List Char)) (st : AdHeader),
    st.in_header = false → (∀ l ∈ lines, ¬ trimL l = ['%']) →
    lines.foldl adHeaderLine st = st := by
  intro lines
  induction lines with
  | nil => intro st _ _; rfl
  | cons l t ih =>
    intro st hin hno
    rw [List.foldl_cons, adHeaderLine_skip hin (hno l (by simp))]
    exact ih st hin (fun x hx => hno x (by simp [hx]))

theorem kicadHeader_fold_skip : ∀ (lines : List (List Char)) (st : KHeader),
    st.in_header = false → (∀ l ∈ lines, ¬ trimL l = ['%']) →
    lines.foldl kicadHeaderLine st = st := by
  intro lines
  induction lines with
  | nil => intro st _ _; rfl
  | cons l t ih =>
    intro st hin hno
    rw [List.foldl_cons, kicadHeaderLine_skip hin (hno l (by simp))]
    exact ih st hin (fun x hx => hno x (by simp [hx]))

/-! ### C5 body-pass header-region behaviour -/

theorem adBody_pct (ip dp : Nat) (lz : Bool) (u : DrillUnit)
    (tm : List (Nat × (Dec × HoleType))) (st : AdBody) :
    adBodyLine ip dp lz u tm st ['%'] = { st with in_header := false } := by
  unfold adBodyLine
  rw [show trimL ['%'] = ['%'] from rfl]
  rw [if_pos rfl]

theorem adBody_headerSkip {ip dp : Nat} {lz : Bool} {u : DrillUnit}
    {tm : List (Nat × (Dec × HoleType))} {st : AdBody} {raw : List Char}
    (hin : st.in_header = true) (hne : ¬ trimL raw = ['%']) :
    adBodyLine ip dp lz u tm st raw = st := by
  unfold adBodyLine
  rw [if_neg hne, hin]
  simp

theorem kicadBody_pct (tm : List (Nat × Dec)) (st : KBody) :
    kicadBodyLine tm st ['%'] = some { st with in_header := false } := by
  unfold kicadBodyLine
  rw [show trimL ['%'] = ['%'] from rfl]
  rw [if_pos rfl]

theorem kicadBody_headerSkip {tm : List (Nat × Dec)} {st : KBody} {raw : List Char}
    (hin : st.in_header = true) (hne : ¬ trimL raw = ['%']) :
    kicadBodyLine tm st raw = some st := by
  unfold kicadBodyLine
  rw [if_neg hne, hin]
  simp

theorem adBody_skip_fold {ip dp : Nat} {lz : Bool} {u : DrillUnit}
    {tm : List (Nat × (Dec × HoleType))} :
    ∀ (lines : List (List Char)) (st : AdBody), st.in_header = true →
    (∀ l ∈ lines, ¬ trimL l = ['%']) →
    lines.foldl (adBodyLine ip dp lz u tm) st = st := by
  intro lines
  induction lines with
  | nil => intro st _ _; rfl
  | cons l t ih =>
    intro st hin hno
    rw [List.foldl_cons, adBody_headerSkip hin (hno l (by simp))]
    exact ih st hin (fun x hx => hno x (by simp [hx]))

theorem kicadBody_skip_fold {tm : List (Nat × Dec)} :
    ∀ (lines : List (List Char)) (st : KBody), st.in_header = true →
    (∀ l ∈ lines, ¬ trimL l = ['%']) →
    lines.foldlM (kicadBodyLine tm) st = some st := by
  intro lines
  induction lines with
  | nil => intro st _ _; rfl
  | cons l t ih =>
    intro st hin hno
    rw [List.foldlM_cons, kicadBody_headerSkip hin (hno l (by simp))]
    rw [show ((some st >>= t.foldlM (kicadBodyLine tm)) : Option KBody)
        = t.foldlM (kicadBodyLine tm) st from rfl]
    exact ih st hin (fun x hx => hno x (by simp [hx]))

/-! ### C5 joint body-pass simulation -/

theorem optBind_some {α β : Type} (a : α) (f : α → Option β) :
    ((some a >>= f) : Option β) = f a := rfl

theorem optFoldl_append {α β : Type} (f : β → α → Option β) : ∀ (l1 l2 : List α) (b : β),
    (l1 ++ l2).foldlM f b = (l1.foldlM f b) >>= (fun x => l2.foldlM f x) := by
  intro l1
  induction l1 with
  | nil => intro l2 b; rfl
  | cons a t ih =>
    intro l2 b
    rw [List.cons_append, List.foldlM_cons, List.foldlM_cons]
    cases hf : f b a with
    | none => rfl
    | some b1 =>
      rw [optBind_some, optBind_some]
      exact ih l2 b1

theorem isSome_lift (k : Nat) (tm : List (Nat × Dec)) :
    (alLookup k (liftTm tm)).isSome = (alLookup k tm).isSome := by
  rw [alLookup_lift]
  cases alLookup k tm <;> rfl

/-- The simulation relation between the two body-pass machines on rendered
input: equal tool cursor, both outside routing and past the header, equal
operation maps whose keys are the tool-map keys, and a selected tool always
present in the tool map. -/
def c5Rel (tmK : List (Nat × Dec)) (sa : AdBody) (sk : KBody) : Prop :=
  sa.current_tool = sk.current_tool ∧ sa.in_route = false ∧ sk.in_route = false ∧
  sa.in_header = false ∧ sk.in_header = false ∧ sa.ops = sk.ops ∧
  (∀ t, (alLookup t sa.ops).isSome = (alLookup t tmK).isSome) ∧
  (∀ t, sa.current_tool = some t → (alLookup t tmK).isSome = true)

theorem c5_item (tmK : List (Nat × Dec)) (it : BodyItem) (hwf : itemWf it = true) :
    ∀ {sa : AdBody} {sk : KBody}, c5Rel tmK sa sk →
    ∃ sk2, (renderItem it).foldlM (kicadBodyLine tmK) sk = some sk2 ∧
      c5Rel tmK ((renderItem it).foldl
        (adBodyLine 2 4 true DrillUnit.Metric (liftTm tmK)) sa) sk2 := by
  intro sa sk h
  obtain ⟨ct, ir, lx, ly, hdr, ops⟩ := sa
  obtain ⟨kct, kir, krs, kly, khdr, kops⟩ := sk
  unfold c5Rel at h
  obtain ⟨h1, h2, h3, h4, h5, h6, h7, h8⟩ := h
  dsimp only at h1 h2 h3 h4 h5 h6 h7 h8
  subst h1
  subst h2
  subst h3
  subst h4
  subst h5
  subst h6
  cases it with
  | toolSel n =>
    have hn : goodDigits n = true := hwf
    have ha : (renderItem (BodyItem.toolSel n)).foldl
        (adBodyLine 2 4 true DrillUnit.Metric (liftTm tmK)) ⟨ct, false, lx, ly, false, ops⟩
        = (if (alLookup (parseU32 n 0) (liftTm tmK)).isSome then
            (⟨some (parseU32 n 0), false, lx, ly, false, ops⟩ : AdBody)
          else ⟨ct, false, lx, ly, false, ops⟩) := by
      rw [show renderItem (BodyItem.toolSel n) = ['T' :: n] from rfl,
        List.foldl_cons, List.foldl_nil, adBody_toolSel hn]
    have hk : (renderItem (BodyItem.toolSel n)).foldlM (kicadBodyLine tmK)
        ⟨ct, false, krs, kly, false, ops⟩
        = some (if (alLookup (parseU32 n 0) tmK).isSome then
            (⟨some (parseU32 n 0), false, krs, kly, false, ops⟩ : KBody)
          else ⟨ct, false, krs, kly, false, ops⟩) := by
      rw [show renderItem (BodyItem.toolSel n) = ['T' :: n] from rfl,
        List.foldlM_cons, kicadBody_toolSel hn, optBind_some]
      rfl
    refine ⟨_, hk, ?_⟩
    rw [ha, isSome_lift]
    by_cases hc : (alLookup (parseU32 n 0) tmK).isSome = true
    · rw [if_pos hc, if_pos hc]
      refine ⟨rfl, rfl, rfl, rfl, rfl, rfl, h7, ?_⟩
      intro t ht
      have he : parseU32 n 0 = t := Option.some.inj ht
      rw [← he]
      exact hc
    · rw [if_neg hc, if_neg hc]
      exact ⟨rfl, rfl, rfl, rfl, rfl, rfl, h7, h8⟩
  | holeAt tx ty =>
    have hwf2 : (goodTok tx && goodTok ty) = true := hwf
    have hx : goodTok tx = true := (Bool.and_eq_true_iff.mp hwf2).1
    have hy : goodTok ty = true := (Bool.and_eq_true_iff.mp hwf2).2
    cases ct with
    | none =>
      have ha : (renderItem (BodyItem.holeAt tx ty)).foldl
          (adBodyLine 2 4 true DrillUnit.Metric (liftTm tmK)) ⟨none, false, lx, ly, false, ops⟩
          = ⟨none, false, lx, ly, false, ops⟩ := by
        rw [show renderItem (BodyItem.holeAt tx ty) = ['X' :: (tx ++ 'Y' :: ty)] from rfl,
          List.foldl_cons, List.foldl_nil, adBody_hole hx hy]
      have hk : (renderItem (BodyItem.holeAt tx ty)).foldlM (kicadBodyLine tmK)
          ⟨none, false, krs, kly, false, ops⟩
          = some ⟨none, false, krs, kly, false, ops⟩ := by
        rw [show renderItem (BodyItem.holeAt tx ty) = ['X' :: (tx ++ 'Y' :: ty)] from rfl,
          List.foldlM_cons, kicadBody_hole hx hy, optBind_some]
        rfl
      refine ⟨_, hk, ?_⟩
      rw [ha]
      exact ⟨rfl, rfl, rfl, rfl, rfl, rfl, h7, h8⟩
    | some tool =>
      have hlk : (alLookup tool ops).isSome = true := (h7 tool).trans (h8 tool rfl)
      have ha : (renderItem (BodyItem.holeAt tx ty)).foldl
          (adBodyLine 2 4 true DrillUnit.Metric (liftTm tmK))
          ⟨some tool, false, lx, ly, false, ops⟩
          = ⟨some tool, false, parseF64D tx, parseF64D ty, false,
             alModify tool (fun op =>
               { op with commands := op.commands
                   ++ [DrillCommand.Hole (parseF64D tx) (parseF64D ty)] }) ops⟩ := by
        rw [show renderItem (BodyItem.holeAt tx ty) = ['X' :: (tx ++ 'Y' :: ty)] from rfl,
          List.foldl_cons, List.foldl_nil, adBody_hole hx hy]
        dsimp only
        rw [if_pos hlk]
      have hk : (renderItem (BodyItem.holeAt tx ty)).foldlM (kicadBodyLine tmK)
          ⟨some tool, false, krs, kly, false, ops⟩
          = some ⟨some tool, false, krs, kly, false,
             alModify tool (fun op =>
               { op with commands := op.commands
                   ++ [DrillCommand.Hole (parseF64D tx) (parseF64D ty)] }) ops⟩ := by
        rw [show renderItem (BodyItem.holeAt tx ty) = ['X' :: (tx ++ 'Y' :: ty)] from rfl,
          List.foldlM_cons, kicadBody_hole hx hy, optBind_some]
        rfl
      refine ⟨_, hk, ?_⟩
      rw [ha]
      exact ⟨rfl, rfl, rfl, rfl, rfl, rfl,
        fun t => (alLookup_alModify t tool _ ops).trans (h7 t), h8⟩
  | slotBlock sx sy ex ey =>
    have hwf2 : (goodTok sx && goodTok sy && goodTok ex && goodTok ey) = true := hwf
    simp only [Bool.and_eq_true] at hwf2
    obtain ⟨⟨⟨hsx, hsy⟩, hex⟩, hey⟩ := hwf2
    cases ct with
    | none =>
      have ha : (renderItem (BodyItem.slotBlock sx sy ex ey)).foldl
          (adBodyLine 2 4 true DrillUnit.Metric (liftTm tmK)) ⟨none, false, lx, ly, false, ops⟩
          = ⟨none, false, parseF64D ex, parseF64D ey, false, ops⟩ := by
        rw [show renderItem (BodyItem.slotBlock sx sy ex ey)
            = ['G' :: '0' :: '0' :: 'X' :: (sx ++ 'Y' :: sy), "M15".toList,
               'G' :: '0' :: '1' :: 'X' :: (ex ++ 'Y' :: ey), "M16".toList] from rfl]
        rw [List.foldl_cons, adBody_g00 hsx hsy]
        rw [List.foldl_cons, adBody_m15]
        rw [List.foldl_cons, adBody_g01 hex hey]
        dsimp only
        rw [List.foldl_cons, adBody_m16, List.foldl_nil]
      have hk : (renderItem (BodyItem.slotBlock sx sy ex ey)).foldlM (kicadBodyLine tmK)
          ⟨none, false, krs, kly, false, ops⟩
          = some ⟨none, false, none, parseF64D ey, false, ops⟩ := by
        rw [show renderItem (BodyItem.slotBlock sx sy ex ey)
            = ['G' :: '0' :: '0' :: 'X' :: (sx ++ 'Y' :: sy), "M15".toList,
               'G' :: '0' :: '1' :: 'X' :: (ex ++ 'Y' :: ey), "M16".toList] from rfl]
        rw [List.foldlM_cons, kicadBody_g00 hsx hsy, optBind_some]
        rw [List.foldlM_cons, kicadBody_m15, optBind_some]
        rw [List.foldlM_cons, kicadBody_g01 hex hey, optBind_some]
        dsimp only
        rw [List.foldlM_cons, kicadBody_m16, optBind_some]
        rfl
      refine ⟨_, hk, ?_⟩
      rw [ha]
      exact ⟨rfl, rfl, rfl, rfl, rfl, rfl, h7, h8⟩
    | some tool =>
      have ha : (renderItem (BodyItem.slotBlock sx sy ex ey)).foldl
          (adBodyLine 2 4 true DrillUnit.Metric (liftTm tmK))
          ⟨some tool, false, lx, ly, false, ops⟩
          = ⟨some tool, false, parseF64D ex, parseF64D ey, false,
             alModify tool (fun op =>
               { op with commands := op.commands
                   ++ [DrillCommand.Slot (parseF64D sx) (parseF64D sy)
                        (parseF64D ex) (parseF64D ey)] }) ops⟩ := by
        rw [show renderItem (BodyItem.slotBlock sx sy ex ey)
            = ['G' :: '0' :: '0' :: 'X' :: (sx ++ 'Y' :: sy), "M15".toList,
               'G' :: '0' :: '1' :: 'X' :: (ex ++ 'Y' :: ey), "M16".toList] from rfl]
        rw [List.foldl_cons, adBody_g00 hsx hsy]
        rw [List.foldl_cons, adBody_m15]
        rw [List.foldl_cons, adBody_g01 hex hey]
        dsimp only
        rw [List.foldl_cons, adBody_m16, List.foldl_nil]
      have hk : (renderItem (BodyItem.slotBlock sx sy ex ey)).foldlM (kicadBodyLine tmK)
          ⟨some tool, false, krs, kly, false, ops⟩
          = some ⟨some tool, false, none, parseF64D ey, false,
             alModify tool (fun op =>
               { op with commands := op.commands
                   ++ [DrillCommand.Slot (parseF64D sx) (parseF64D sy)
                        (parseF64D ex) (parseF64D ey)] }) ops⟩ := by
        rw [show renderItem (BodyItem.slotBlock sx sy ex ey)
            = ['G' :: '0' :: '0' :: 'X' :: (sx ++ 'Y' :: sy), "M15".toList,
               'G' :: '0' :: '1' :: 'X' :: (ex ++ 'Y' :: ey), "M16".toList] from rfl]
        rw [List.foldlM_cons, kicadBody_g00 hsx hsy, optBind_some]
        rw [List.foldlM_cons, kicadBody_m15, optBind_some]
        rw [List.foldlM_cons, kicadBody_g01 hex hey, optBind_some]
        dsimp only
        rw [List.foldlM_cons, kicadBody_m16, optBind_some]
        rfl
      refine ⟨_, hk, ?_⟩
      rw [ha]
      exact ⟨rfl, rfl, rfl, rfl, rfl, rfl,
        fun t => (alLookup_alModify t tool _ ops).trans (h7 t), h8⟩

theorem c5_body_fold (tmK : List (Nat × Dec)) : ∀ (items : List BodyItem),
    (∀ it ∈ items, itemWf it = true) →
    ∀ {sa : AdBody} {sk : KBody}, c5Rel tmK sa sk →
    ∃ sk2, (renderBody items).foldlM (kicadBodyLine tmK) sk = some sk2 ∧
      c5Rel tmK ((renderBody items).foldl
        (adBodyLine 2 4 true DrillUnit.Metric (liftTm tmK)) sa) sk2 := by
  intro items
  induction items with
  | nil => intro _ sa sk h; exact ⟨sk, rfl, h⟩
  | cons it rest ih =>
    intro hwf sa sk h
    obtain ⟨sk1, hk1, hrel1⟩ := c5_item tmK it (hwf it (by simp)) h
    obtain ⟨sk2, hk2, hrel2⟩ := ih (fun x hx => hwf x (by simp [hx])) hrel1
    refine ⟨sk2, ?_, ?_⟩
    · rw [show renderBody (it :: rest) = renderItem it ++ renderBody rest from rfl]
      rw [optFoldl_append, hk1, optBind_some, hk2]
    · rw [show renderBody (it :: rest) = renderItem it ++ renderBody rest from rfl,
        List.foldl_append]
      exact hrel2

/-! ### C5 end-to-end assembly -/

theorem adBody_through_header {ip dp : Nat} {lz : Bool} {u : DrillUnit}
    {tm : List (Nat × (Dec × HoleType))} (toolLines body : List (List Char))
    (hno : ∀ l ∈ toolLines, ¬ trimL l = ['%']) (st : AdBody) (hin : st.in_header = true) :
    (toolLines ++ [['%']] ++ body).foldl (adBodyLine ip dp lz u tm) st
      = body.foldl (adBodyLine ip dp lz u tm) { st with in_header := false } := by
  rw [List.foldl_append, List.foldl_append]
  rw [adBody_skip_fold toolLines st hin hno]
  rw [List.foldl_cons, List.foldl_nil, adBody_pct]

theorem kicadBody_through_header {tm : List (Nat × Dec)} (toolLines body : List (List Char))
    (hno : ∀ l ∈ toolLines, ¬ trimL l = ['%']) (st : KBody) (hin : st.in_header = true) :
    (toolLines ++ [['%']] ++ body).foldlM (kicadBodyLine tm) st
      = body.foldlM (kicadBodyLine tm) { st with in_header := false } := by
  rw [optFoldl_append, optFoldl_append]
  rw [kicadBody_skip_fold toolLines st hin hno, optBind_some]
  rw [List.foldlM_cons, kicadBody_pct, optBind_some]
  rfl

theorem adHeader_full {tools : List (List Char × List Char)} {items : List BodyItem}
    (htools : ∀ p ∈ tools, goodDigits p.1 = true ∧ goodDiam p.2 = true)
    (hitems : ∀ it ∈ items, itemWf it = true) :
    (tools.map adToolLine ++ [['%']] ++ renderBody items).foldl adHeaderLine adHeaderInit
      = ⟨DrillUnit.Metric, 2, 4, true, HoleType.Plated, false,
         liftTm (tools.foldl (fun acc p =>
           alInsert (parseU32 p.1 0) (parseF64D p.2) acc) [])⟩ := by
  rw [List.foldl_append, List.foldl_append]
  rw [show adHeaderInit = ⟨DrillUnit.Metric, 2, 4, true, HoleType.Plated, true, []⟩ from rfl]
  rw [adHeader_fold_tools tools [] htools]
  rw [List.foldl_cons, List.foldl_nil, adHeaderLine_pct]
  rw [adHeader_fold_skip (renderBody items) _ rfl (renderBody_no_pct hitems)]
  rw [show ([] : List (Nat × (Dec × HoleType))) = liftTm [] from rfl, liftTm_fold]

theorem kicadHeader_full {tools : List (List Char × List Char)} {items : List BodyItem}
    (htools : ∀ p ∈ tools, goodDigits p.1 = true ∧ goodDiam p.2 = true)
    (hitems : ∀ it ∈ items, itemWf it = true) :
    (tools.map kicadToolLine ++ [['%']] ++ renderBody items).foldl kicadHeaderLine ⟨true, []⟩
      = ⟨false, tools.foldl (fun acc p =>
          alInsert (parseU32 p.1 0) (parseF64D p.2) acc) []⟩ := by
  rw [List.foldl_append, List.foldl_append]
  rw [kicadHeader_fold_tools tools [] htools]
  rw [List.foldl_cons, List.foldl_nil, kicadHeaderLine_pct]
  rw [kicadHeader_fold_skip (renderBody items) _ rfl (renderBody_no_pct hitems)]

/-- C5 (amended): on rendered inputs whose body is restricted to the shared
command language (tool selects, two-axis coordinate lines, and complete
G00/M15/G01/M16 routing blocks, every token decimal-pointed and f64-parsable,
under the Metric default), the two body state machines agree: the KiCad parse
of the KiCad rendering returns exactly the Altium parse of the Altium
rendering of the same tools and body, with the Plated whole-file class.  The
original claim is false in general because the Slot start point differs: the
Altium machine chains a routed slot from the current cursor while the KiCad
machine reuses the route start captured at G00 (see the counterexample). -/
theorem c5_amended (tools : List (List Char × List Char)) (items : List BodyItem)
    (htools : ∀ p ∈ tools, goodDigits p.1 = true ∧ goodDiam p.2 = true)
    (hitems : ∀ it ∈ items, itemWf it = true) :
    parse_kicad_excellon (renderKicadContent tools items)
      = some (parse_ad_excellon (renderAdContent tools items), HoleType.Plated) := by
  have hlinesK : rustLines (renderKicadContent tools items)
      = tools.map kicadToolLine ++ [['%']] ++ renderBody items := by
    unfold renderKicadContent
    exact rustLines_unlines (kicadLines_chars htools hitems)
  have hlinesA : rustLines (renderAdContent tools items)
      = tools.map adToolLine ++ [['%']] ++ renderBody items := by
    unfold renderAdContent
    exact rustLines_unlines (adLines_chars htools hitems)
  have hht : kicadHoleType (renderKicadContent tools items) = HoleType.Plated :=
    kicadHoleType_render htools hitems
  unfold parse_kicad_excellon parse_ad_excellon
  rw [hlinesK, hlinesA, hht]
  dsimp only
  rw [kicadHeader_full htools hitems, adHeader_full htools hitems]
  dsimp only
  rw [liftTm_opsInit]
  rw [kicadBody_through_header _ _ (kicadToolLines_no_pct htools) _ rfl]
  rw [adBody_through_header _ _ (adToolLines_no_pct htools) _ rfl]
  dsimp only
  have hrel0 : c5Rel (tools.foldl (fun acc p => alInsert (parseU32 p.1 0) (parseF64D p.2) acc) [])
      ⟨none, false, dZero, dZero, false,
        (tools.foldl (fun acc p => alInsert (parseU32 p.1 0) (parseF64D p.2) acc) []).map
          (fun p => (p.1, DrillOperation.mk p.2 HoleType.Plated []))⟩
      ⟨none, false, none, dZero, false,
        (tools.foldl (fun acc p => alInsert (parseU32 p.1 0) (parseF64D p.2) acc) []).map
          (fun p => (p.1, DrillOperation.mk p.2 HoleType.Plated []))⟩ :=
    ⟨rfl, rfl, rfl, rfl, rfl, rfl,
      fun t => alLookup_opsInit t HoleType.Plated _,
      fun t ht => Option.noConfusion ht⟩
  obtain ⟨sk2, hk2, hrel2⟩ := c5_body_fold
    (tools.foldl (fun acc p => alInsert (parseU32 p.1 0) (parseF64D p.2) acc) []) items hitems
    hrel0
  rw [hk2]
  rw [Option.map_some']
  rw [hrel2.2.2.2.2.2.1]

/-- One tool and a tool select, a hole and a slot block over it. -/
def c5Tools : List (List Char × List Char) := [(['0', '1'], ['1', '.', '5'])]

def c5Items : List BodyItem :=
  [BodyItem.toolSel ['0', '1'], BodyItem.holeAt ['1', '.', '0'] ['2', '.', '0'],
   BodyItem.slotBlock ['1', '.', '0'] ['1', '.', '0'] ['3', '.', '0'] ['3', '.', '0']]

/-- C5 witness: the amended equivalence applied at a concrete one-tool file
holding a hole and a routed slot. -/
theorem c5_amended_witness :
    (∀ p ∈ c5Tools, goodDigits p.1 = true ∧ goodDiam p.2 = true) ∧
    (∀ it ∈ c5Items, itemWf it = true) ∧
    parse_kicad_excellon (renderKicadContent c5Tools c5Items)
      = some (parse_ad_excellon (renderAdContent c5Tools c5Items), HoleType.Plated) :=
  ⟨by decide, by decide, c5_amended c5Tools c5Items (by decide) (by decide)⟩

/-- An Altium file whose body routes two consecutive slots. -/
def adC5 : String :=
  "T01F00S00C1.5\n%\nT01\nG00X1.0Y1.0\nM15\nG01X2.0Y2.0\nG01X3.0Y3.0\nM16\n"

/-- A KiCad file with the identical body line sequence. -/
def kcC5 : String :=
  "T1C1.5\n%\nT1\nG00X1.0Y1.0\nM15\nG01X2.0Y2.0\nG01X3.0Y3.0\nM16\n"

/-- C5 counterexample: on the identical body line sequence
G00X1.0Y1.0 / M15 / G01X2.0Y2.0 / G01X3.0Y3.0 / M16 the two parsers emit
different Slot sequences: the Altium machine chains the second slot from the
moved cursor, Slot(2,2)-(3,3), while the KiCad machine starts it again from
the G00 route start, Slot(1,1)-(3,3).  So the two body passes are not the
same state machine on the full shared command language. -/
theorem c5_counterexample :
    ¬ ((parse_kicad_excellon kcC5).map (fun p => p.1.operations.map (fun op => op.commands))
       = some ((parse_ad_excellon adC5).operations.map (fun op => op.commands))) := by
  decide
